import Mathlib

/-
Verification development for the webquiz backend (backend/services.py,
backend/clean.py, backend/routes.py): a shallow embedding of the
dedupe/fingerprint subsystem and its callers, plus proofs about it.

Modelling conventions:
  * JSON-like Python values (question dicts, answer lists, user payloads) are
    the mutual inductive JVal / JList / JObj below.  Python None is JVal.null.
  * datetime values are modelled as integer epoch seconds (Nat); isoformat is
    modelled as their decimal rendering (the properties the code relies on --
    injectivity, nonemptiness, absence of the "|" separator -- hold of real
    ISO strings).
  * machine integers do not occur: Python ints are unbounded, as are Nat/Int.
  * fallible Python code (functions that can raise) returns Except.
-/

deriving instance DecidableEq for Except

namespace WebQuiz

/- JSON-like values, mirroring what Python json / SQLAlchemy JSON columns
carry: None, bool, int, str, list, dict.  (The system's payloads contain no
float literals, so numbers are modelled as integers.) -/
mutual
inductive JVal where
  | null : JVal
  | bool (b : Bool) : JVal
  | int (n : Int) : JVal
  | str (s : String) : JVal
  | arr (xs : JList) : JVal
  | obj (kvs : JObj) : JVal
  deriving DecidableEq
inductive JList where
  | nil : JList
  | cons (v : JVal) (tl : JList) : JList
  deriving DecidableEq
inductive JObj where
  | nil : JObj
  | cons (k : String) (v : JVal) (tl : JObj) : JObj
  deriving DecidableEq
end

def JList.ofList : List JVal → JList
  | [] => .nil
  | v :: tl => .cons v (JList.ofList tl)

def JList.toList : JList → List JVal
  | .nil => []
  | .cons v tl => v :: JList.toList tl

def JObj.ofList : List (String × JVal) → JObj
  | [] => .nil
  | (k, v) :: tl => .cons k v (JObj.ofList tl)

def JObj.toList : JObj → List (String × JVal)
  | .nil => []
  | .cons k v tl => (k, v) :: JObj.toList tl

/-- Python dict .get(key): first binding wins (Python dicts never hold a key
twice; values built by the JSON parser below collapse duplicates keep-last,
matching CPython). -/
def jGet : JObj → String → Option JVal
  | .nil, _ => none
  | .cons k v tl, key => if k = key then some v else jGet tl key

/-- Python truthiness of a JSON-like value ("if not u", "x or y"). -/
def falsy : JVal → Bool
  | .null => true
  | .bool b => !b
  | .int n => decide (n = 0)
  | .str s => decide (s = "")
  | .arr .nil => true
  | .arr _ => false
  | .obj .nil => true
  | .obj _ => false

-- ---------------------------------------------------------------------------
-- Python string helpers: str() of ints, .strip(), .lower()
-- ---------------------------------------------------------------------------

def digitChar (d : Nat) : Char := Char.ofNat (48 + d)

/-- Decimal digits of n, most significant first; fuel-structural so that it
reduces inside the kernel.  natRepr supplies fuel n+1, which is ample. -/
def natReprAux : Nat → Nat → List Char
  | 0, _ => []
  | f+1, n => if n < 10 then [digitChar n] else natReprAux f (n / 10) ++ [digitChar (n % 10)]

/-- Python str() of a non-negative int. -/
def natRepr (n : Nat) : String := String.mk (natReprAux (n+1) n)

/-- Python str() of an int. -/
def intRepr : Int → String
  | .ofNat m => natRepr m
  | .negSucc m => "-" ++ natRepr (m+1)

def isPySpace (c : Char) : Bool :=
  decide (c = ' ' ∨ c.toNat = 9 ∨ c.toNat = 10 ∨ c.toNat = 13 ∨ c.toNat = 11 ∨ c.toNat = 12)

/-- Python str.strip(): remove leading and trailing whitespace. -/
def pyStrip (s : String) : String :=
  String.mk (((s.data.dropWhile isPySpace).reverse.dropWhile isPySpace).reverse)

/-- Python str.lower() (ASCII case folding; the payloads are ASCII). -/
def pyLower (s : String) : String := String.mk (s.data.map Char.toLower)

-- ---------------------------------------------------------------------------
-- Canonical encoder: json.dumps(v, sort_keys=True, ensure_ascii=False,
--                               separators=(',', ':'))
-- ---------------------------------------------------------------------------

def hexDigit (n : Nat) : Char := if n < 10 then Char.ofNat (48 + n) else Char.ofNat (87 + n)

/-- JSON string escaping as json.dumps with ensure_ascii=False performs it:
quote, backslash and control characters are escaped, everything else is kept. -/
def escChar (c : Char) : List Char :=
  if c = '"' then ['\\', '"']
  else if c = '\\' then ['\\', '\\']
  else if c.toNat = 8 then ['\\', 'b']
  else if c.toNat = 9 then ['\\', 't']
  else if c.toNat = 10 then ['\\', 'n']
  else if c.toNat = 12 then ['\\', 'f']
  else if c.toNat = 13 then ['\\', 'r']
  else if c.toNat < 32 then ['\\', 'u', '0', '0', hexDigit (c.toNat / 16), hexDigit (c.toNat % 16)]
  else [c]

def jsonQuote (s : String) : String := String.mk ('"' :: (s.data.map escChar).flatten ++ ['"'])

/-- Code-point comparison on char lists, as Python compares strings when
json.dumps sorts object keys. -/
def charsLe : List Char → List Char → Bool
  | [], _ => true
  | _ :: _, [] => false
  | a :: as, b :: bs =>
    if a.toNat < b.toNat then true
    else if b.toNat < a.toNat then false
    else charsLe as bs

def strLe (a b : String) : Bool := charsLe a.data b.data

def jobjInsert (k : String) (v : JVal) : JObj → JObj
  | .nil => .cons k v .nil
  | .cons k2 v2 tl =>
    if strLe k k2 then .cons k v (.cons k2 v2 tl) else .cons k2 v2 (jobjInsert k v tl)

/-- Insertion sort of an object's bindings by key (json.dumps sort_keys). -/
def jobjSort : JObj → JObj
  | .nil => .nil
  | .cons k v tl => jobjInsert k v (jobjSort tl)

/- Sort the keys of every object in the tree, bottom-up.  Serializing with
sort_keys=True is serializing the key-sorted tree. -/
mutual
def sortDeep : JVal → JVal
  | .null => .null
  | .bool b => .bool b
  | .int n => .int n
  | .str s => .str s
  | .arr xs => .arr (sortDeepList xs)
  | .obj kvs => .obj (jobjSort (sortDeepObj kvs))
def sortDeepList : JList → JList
  | .nil => .nil
  | .cons v tl => .cons (sortDeep v) (sortDeepList tl)
def sortDeepObj : JObj → JObj
  | .nil => .nil
  | .cons k v tl => .cons k (sortDeep v) (sortDeepObj tl)
end

/- Serializer for an already key-sorted tree, with separators (',', ':') and
no extra whitespace. -/
mutual
def dumpsRaw : JVal → String
  | .null => "null"
  | .bool true => "true"
  | .bool false => "false"
  | .int n => intRepr n
  | .str s => jsonQuote s
  | .arr xs => "[" ++ dumpsRawList xs ++ "]"
  | .obj kvs => "\x7b" ++ dumpsRawObj kvs ++ "\x7d"
def dumpsRawList : JList → String
  | .nil => ""
  | .cons v .nil => dumpsRaw v
  | .cons v tl => dumpsRaw v ++ "," ++ dumpsRawList tl
def dumpsRawObj : JObj → String
  | .nil => ""
  | .cons k v .nil => jsonQuote k ++ ":" ++ dumpsRaw v
  | .cons k v tl => jsonQuote k ++ ":" ++ dumpsRaw v ++ "," ++ dumpsRawObj tl
end

/-- json.dumps(v, sort_keys=True, ensure_ascii=False, separators=(',',':')). -/
def dumps (v : JVal) : String := dumpsRaw (sortDeep v)

-- ---------------------------------------------------------------------------
-- UTF-8 and SHA-256 (hashlib.sha256(...).hexdigest())
-- ---------------------------------------------------------------------------

def utf8Char (c : Char) : List Nat :=
  let n := c.toNat
  if n < 128 then [n]
  else if n < 2048 then [192 + n / 64, 128 + n % 64]
  else if n < 65536 then [224 + n / 4096, 128 + (n / 64) % 64, 128 + n % 64]
  else [240 + n / 262144, 128 + (n / 4096) % 64, 128 + (n / 64) % 64, 128 + n % 64]

/-- Python s.encode('utf-8') as a byte list. -/
def strUtf8 (s : String) : List Nat := (s.data.map utf8Char).flatten

def w32 (x : Nat) : Nat := x % 4294967296

def rotr (n x : Nat) : Nat := w32 ((x >>> n) ||| (x <<< (32 - n)))

def shaK : List Nat :=
  [1116352408, 1899447441, 3049323471, 3921009573, 961987163,
   1508970993, 2453635748, 2870763221, 3624381080, 310598401,
   607225278, 1426881987, 1925078388, 2162078206, 2614888103,
   3248222580, 3835390401, 4022224774, 264347078, 604807628,
   770255983, 1249150122, 1555081692, 1996064986, 2554220882,
   2821834349, 2952996808, 3210313671, 3336571891, 3584528711,
   113926993, 338241895, 666307205, 773529912, 1294757372,
   1396182291, 1695183700, 1986661051, 2177026350, 2456956037,
   2730485921, 2820302411, 3259730800, 3345764771, 3516065817,
   3600352804, 4094571909, 275423344, 430227734, 506948616,
   659060556, 883997877, 958139571, 1322822218, 1537002063,
   1747873779, 1955562222, 2024104815, 2227730452, 2361852424,
   2428436474, 2756734187, 3204031479, 3329325298]

def shaH0 : List Nat :=
  [1779033703, 3144134277, 1013904242, 2773480762, 1359893119,
   2600822924, 528734635, 1541459225]

def beBytes : Nat → Nat → List Nat
  | 0, _ => []
  | k+1, x => beBytes k (x >>> 8) ++ [x % 256]

def bytesToWords : List Nat → List Nat
  | b0 :: b1 :: b2 :: b3 :: rest => (((b0 * 256 + b1) * 256 + b2) * 256 + b3) :: bytesToWords rest
  | _ => []

def padMsg (msg : List Nat) : List Nat :=
  let L := msg.length
  let k := (64 - ((L + 9) % 64)) % 64
  msg ++ [128] ++ List.replicate k 0 ++ beBytes 8 (8 * L)

def chunksOf64 : Nat → List Nat → List (List Nat)
  | 0, _ => []
  | _, [] => []
  | f+1, bs => bs.take 64 :: chunksOf64 f (bs.drop 64)

def extendW : Nat → List Nat → List Nat
  | 0, ws => ws
  | f+1, ws =>
    let i := ws.length
    let w15 := ws.getD (i-15) 0
    let w2 := ws.getD (i-2) 0
    let w16 := ws.getD (i-16) 0
    let w7 := ws.getD (i-7) 0
    let s0 := (rotr 7 w15) ^^^ (rotr 18 w15) ^^^ (w15 >>> 3)
    let s1 := (rotr 17 w2) ^^^ (rotr 19 w2) ^^^ (w2 >>> 10)
    extendW f (ws ++ [w32 (w16 + s0 + w7 + s1)])

structure H8 where
  a : Nat
  b : Nat
  c : Nat
  d : Nat
  e : Nat
  f : Nat
  g : Nat
  h : Nat

def shaRound (st : H8) (kw : Nat × Nat) : H8 :=
  let S1 := (rotr 6 st.e) ^^^ (rotr 11 st.e) ^^^ (rotr 25 st.e)
  let ch := (st.e &&& st.f) ^^^ ((st.e ^^^ 4294967295) &&& st.g)
  let t1 := w32 (st.h + S1 + ch + kw.1 + kw.2)
  let S0 := (rotr 2 st.a) ^^^ (rotr 13 st.a) ^^^ (rotr 22 st.a)
  let mj := (st.a &&& st.b) ^^^ (st.a &&& st.c) ^^^ (st.b &&& st.c)
  let t2 := w32 (S0 + mj)
  ⟨w32 (t1 + t2), st.a, st.b, st.c, w32 (st.d + t1), st.e, st.f, st.g⟩

def compressBlock (hs : List Nat) (block : List Nat) : List Nat :=
  let ws := extendW 48 (bytesToWords block)
  let st0 : H8 := ⟨hs.getD 0 0, hs.getD 1 0, hs.getD 2 0, hs.getD 3 0,
                   hs.getD 4 0, hs.getD 5 0, hs.getD 6 0, hs.getD 7 0⟩
  let st := (shaK.zip ws).foldl shaRound st0
  List.map w32
    [hs.getD 0 0 + st.a, hs.getD 1 0 + st.b, hs.getD 2 0 + st.c, hs.getD 3 0 + st.d,
     hs.getD 4 0 + st.e, hs.getD 5 0 + st.f, hs.getD 6 0 + st.g, hs.getD 7 0 + st.h]

/-- SHA-256 digest of a byte sequence, as eight 32-bit words. -/
def sha256Words (msg : List Nat) : List Nat :=
  let padded := padMsg msg
  (chunksOf64 padded.length padded).foldl compressBlock shaH0

def hexWord (x : Nat) : List Char :=
  [hexDigit ((x >>> 28) % 16), hexDigit ((x >>> 24) % 16), hexDigit ((x >>> 20) % 16),
   hexDigit ((x >>> 16) % 16), hexDigit ((x >>> 12) % 16), hexDigit ((x >>> 8) % 16),
   hexDigit ((x >>> 4) % 16), hexDigit (x % 16)]

/-- hashlib.sha256(bytes).hexdigest() -/
def sha256hex (msg : List Nat) : String := String.mk ((sha256Words msg).map hexWord).flatten

/-- Canonical encoding of a question list: the json.dumps text the fingerprint
hashes (services.py line 223). -/
def encodeQuestions (questions : List JVal) : String := dumps (.arr (JList.ofList questions))

/-- services._questions_fingerprint: sha256 hex digest of the canonical
json.dumps encoding of the question list. -/
def _questions_fingerprint (questions : List JVal) : String :=
  sha256hex (strUtf8 (encodeQuestions questions))

-- ---------------------------------------------------------------------------
-- json.loads (strict JSON, as the CPython json module parses the inputs this
-- system feeds it; NaN/Infinity literals and float/exponent numbers are not
-- modelled -- the system's payloads contain none)
-- ---------------------------------------------------------------------------

def skipWs : List Char → List Char
  | [] => []
  | c :: cs =>
    if c = ' ' ∨ c.toNat = 9 ∨ c.toNat = 10 ∨ c.toNat = 13 then skipWs cs else c :: cs

/-- Python dict insertion: an existing key keeps its position and gets the new
value, a new key is appended (so repeated keys in a JSON text keep the last
value, as CPython's parser does). -/
def objSet (k : String) (v : JVal) : List (String × JVal) → List (String × JVal)
  | [] => [(k, v)]
  | (k2, v2) :: tl => if k2 = k then (k2, v) :: tl else (k2, v2) :: objSet k v tl

def isDigitCh (c : Char) : Bool := decide (48 ≤ c.toNat ∧ c.toNat ≤ 57)

def takeDigits : List Char → (List Char × List Char)
  | [] => ([], [])
  | c :: cs =>
    if isDigitCh c then
      let (ds, rest) := takeDigits cs
      (c :: ds, rest)
    else ([], c :: cs)

def digitsVal (ds : List Char) : Nat :=
  List.foldl (fun acc d => acc * 10 + (d.toNat - 48)) 0 ds

/-- A number may not continue with a fraction, exponent or stray digit in this
model (the system's JSON payloads hold only integers). -/
def numBreaksOk : List Char → Bool
  | [] => true
  | c :: _ => !(isDigitCh c || decide (c = '.') || decide (c = 'e') || decide (c = 'E'))

def parseUInt (cs : List Char) : Option (Nat × List Char) :=
  match cs with
  | [] => none
  | c :: rest =>
    if c = '0' then
      if numBreaksOk rest then some (0, rest) else none
    else if isDigitCh c then
      let (ds, rest2) := takeDigits rest
      if numBreaksOk rest2 then some (digitsVal (c :: ds), rest2) else none
    else none

def hexVal (c : Char) : Option Nat :=
  if 48 ≤ c.toNat ∧ c.toNat ≤ 57 then some (c.toNat - 48)
  else if 97 ≤ c.toNat ∧ c.toNat ≤ 102 then some (c.toNat - 87)
  else if 65 ≤ c.toNat ∧ c.toNat ≤ 70 then some (c.toNat - 55)
  else none

/-- JSON string body after the opening quote; acc holds the chars reversed.
Raw control characters are rejected, escapes are decoded (lone-surrogate
pairing is not modelled; the system's payloads are plain text). -/
def parseStrBody : List Char → List Char → Option (String × List Char)
  | acc, '"' :: rest => some (String.mk acc.reverse, rest)
  | acc, '\\' :: e :: rest =>
    if e = '"' then parseStrBody ('"' :: acc) rest
    else if e = '\\' then parseStrBody ('\\' :: acc) rest
    else if e = '/' then parseStrBody ('/' :: acc) rest
    else if e = 'b' then parseStrBody (Char.ofNat 8 :: acc) rest
    else if e = 'f' then parseStrBody (Char.ofNat 12 :: acc) rest
    else if e = 'n' then parseStrBody (Char.ofNat 10 :: acc) rest
    else if e = 'r' then parseStrBody (Char.ofNat 13 :: acc) rest
    else if e = 't' then parseStrBody (Char.ofNat 9 :: acc) rest
    else if e = 'u' then
      match rest with
      | h1 :: h2 :: h3 :: h4 :: r2 =>
        match hexVal h1, hexVal h2, hexVal h3, hexVal h4 with
        | some a, some b, some c, some d =>
          parseStrBody (Char.ofNat (((a * 16 + b) * 16 + c) * 16 + d) :: acc) r2
        | _, _, _, _ => none
      | _ => none
    else none
  | acc, c :: rest => if c.toNat < 32 then none else parseStrBody (c :: acc) rest
  | _, [] => none

mutual
/-- Recursive-descent JSON value parser; the fuel bounds nesting depth and the
caller supplies more than the input length, which is ample. -/
def parseVal : Nat → List Char → Option (JVal × List Char)
  | 0, _ => none
  | f+1, cs =>
    match skipWs cs with
    | [] => none
    | c :: rest =>
      if c = '\x7b' then
        match skipWs rest with
        | '\x7d' :: r2 => some (.obj .nil, r2)
        | r2 => parseMembers f [] r2
      else if c = '[' then
        match skipWs rest with
        | ']' :: r2 => some (.arr .nil, r2)
        | r2 => parseElems f [] r2
      else if c = '"' then
        match parseStrBody [] rest with
        | some (s, r2) => some (.str s, r2)
        | none => none
      else if c = 't' then
        match rest with
        | 'r' :: 'u' :: 'e' :: r2 => some (.bool true, r2)
        | _ => none
      else if c = 'f' then
        match rest with
        | 'a' :: 'l' :: 's' :: 'e' :: r2 => some (.bool false, r2)
        | _ => none
      else if c = 'n' then
        match rest with
        | 'u' :: 'l' :: 'l' :: r2 => some (.null, r2)
        | _ => none
      else if c = '-' then
        match parseUInt rest with
        | some (n, r2) => some (.int (-(n : Int)), r2)
        | none => none
      else
        match parseUInt (c :: rest) with
        | some (n, r2) => some (.int (n : Int), r2)
        | none => none

/-- Object members: "key" : value (',' "key" : value)* '\x7d', starting at the
first key; acc holds the bindings gathered so far. -/
def parseMembers : Nat → List (String × JVal) → List Char → Option (JVal × List Char)
  | 0, _, _ => none
  | f+1, acc, cs =>
    match skipWs cs with
    | '"' :: rest =>
      match parseStrBody [] rest with
      | some (k, r2) =>
        match skipWs r2 with
        | ':' :: r3 =>
          match parseVal f r3 with
          | some (v, r4) =>
            match skipWs r4 with
            | ',' :: r5 => parseMembers f (objSet k v acc) r5
            | '\x7d' :: r5 => some (.obj (JObj.ofList (objSet k v acc)), r5)
            | _ => none
          | none => none
        | _ => none
      | none => none
    | _ => none

/-- Array elements: value (',' value)* ']', starting at the first element. -/
def parseElems : Nat → List JVal → List Char → Option (JVal × List Char)
  | 0, _, _ => none
  | f+1, acc, cs =>
    match parseVal f cs with
    | some (v, r2) =>
      match skipWs r2 with
      | ',' :: r3 => parseElems f (acc ++ [v]) r3
      | ']' :: r3 => some (.arr (JList.ofList (acc ++ [v])), r3)
      | _ => none
    | none => none
end

/-- json.loads on a string: parse one value, allow trailing whitespace only.
Returns none where CPython raises (the callers catch and fall back). -/
def jsonLoads (s : String) : Option JVal :=
  match parseVal (s.data.length + 2) s.data with
  | some (v, rest) => if skipWs rest = [] then some v else none
  | none => none

-- ---------------------------------------------------------------------------
-- Python str() of a JSON-like value
-- ---------------------------------------------------------------------------

/- repr(): like str() on scalars, quotes strings; containers render their
elements with repr and ", " separators, as CPython prints lists and dicts.
(String quoting inside containers is naive -- no escaping -- those branches
serve only non-container inputs in the code under study.) -/
mutual
def pyRepr : JVal → String
  | .null => "None"
  | .bool true => "True"
  | .bool false => "False"
  | .int n => intRepr n
  | .str s => "\x27" ++ s ++ "\x27"
  | .arr xs => "[" ++ pyReprList xs ++ "]"
  | .obj kvs => "\x7b" ++ pyReprObj kvs ++ "\x7d"
def pyReprList : JList → String
  | .nil => ""
  | .cons v .nil => pyRepr v
  | .cons v tl => pyRepr v ++ ", " ++ pyReprList tl
def pyReprObj : JObj → String
  | .nil => ""
  | .cons k v .nil => "\x27" ++ k ++ "\x27: " ++ pyRepr v
  | .cons k v tl => "\x27" ++ k ++ "\x27: " ++ pyRepr v ++ ", " ++ pyReprObj tl
end

/-- Python str(): the string itself for str, repr for everything else that
occurs here (None, bools, ints, lists, dicts). -/
def pyStr : JVal → String
  | .str s => s
  | v => pyRepr v

-- ---------------------------------------------------------------------------
-- Quiz store and save_quiz_to_db_sync (services.py lines 226-252)
-- ---------------------------------------------------------------------------

/-- One row of the quizzes table.  title is Optional (the column is nullable);
created_at is the epoch-second datetime model. -/
structure QuizRow where
  id : Nat
  title : Option String
  questions : List JVal
  fingerprint : String
  created_at : Nat
  deriving DecidableEq

/-- The quizzes table plus the primary-key sequence. -/
structure QuizStore where
  rows : List QuizRow
  nextId : Nat
  deriving DecidableEq

/-- Python truthiness of the optional title argument ("if title and ..."). -/
def titleTruthy : Option String → Bool
  | none => false
  | some s => decide (s ≠ "")

/-- existing.title in (None, "", "Uploaded Quiz") -/
def placeholderTitle (t : Option String) : Bool :=
  decide (t = none) || decide (t = some ("")) || decide (t = some ("Uploaded Quiz"))

/-- Mutating existing.title on the row first() returned: replace the first row
carrying the fingerprint. -/
def backfillTitle (fp : String) (title : Option String) : List QuizRow → List QuizRow
  | [] => []
  | r :: rs =>
    if r.fingerprint = fp then { r with title := title } :: rs
    else r :: backfillTitle fp title rs

/-- services.save_quiz_to_db_sync: fingerprint the questions; if a quiz with
that fingerprint exists return its id (optionally backfilling a placeholder
title), otherwise insert a new row and return the fresh id. -/
def save_quiz_to_db_sync (now : Nat) (st : QuizStore) (title : Option String)
    (questions : List JVal) : Nat × QuizStore :=
  let fp := _questions_fingerprint questions
  match st.rows.find? (fun r => decide (r.fingerprint = fp)) with
  | some existing =>
    if titleTruthy title && placeholderTitle existing.title && decide (title ≠ existing.title) then
      (existing.id, { st with rows := backfillTitle fp title st.rows })
    else
      (existing.id, st)
  | none =>
    (st.nextId,
     { rows := st.rows ++ [{ id := st.nextId, title := title, questions := questions,
                             fingerprint := fp, created_at := now }],
       nextId := st.nextId + 1 })

/-- N successive save_quiz_to_db_sync calls on the same question list, each
with its own call time and title; returns the ids in call order. -/
def saveQuizCalls (questions : List JVal) : QuizStore → List (Nat × Option String) → List Nat × QuizStore
  | st, [] => ([], st)
  | st, (now, title) :: rest =>
    let r1 := save_quiz_to_db_sync now st title questions
    let r2 := saveQuizCalls questions r1.2 rest
    (r1.1 :: r2.1, r2.2)

/-- QuestionSchema validity: a dict with a question string, exactly four
option strings and a correct_answer string equal to one of the options. -/
def validQuestion (v : JVal) : Bool :=
  match v with
  | .obj kvs =>
    match jGet kvs ("question"), jGet kvs ("options"), jGet kvs ("correct_answer") with
    | some (.str _), some (.arr opts), some (.str ca) =>
      let os := opts.toList
      decide (os.length = 4) && os.all (fun o => match o with | .str _ => true | _ => false)
        && decide ((JVal.str ca) ∈ os)
    | _, _, _ => false
  | _ => false

/-- QuizCreateSchema validity of a question list: at least one question, all
valid. -/
def validQuestions (qs : List JVal) : Bool :=
  decide (qs ≠ []) && qs.all validQuestion

-- ---------------------------------------------------------------------------
-- Result store and save_result_sync (services.py lines 276-371)
-- ---------------------------------------------------------------------------

/-- One row of the results table.  created_at is nullable in the schema, so it
is Option Nat here; save_result_sync always fills it. -/
structure ResultRow where
  id : Nat
  quiz_id : Option Int
  score : Int
  total : Int
  answers : JVal
  user : JVal
  created_at : Option Nat
  deriving DecidableEq

structure ResultStore where
  rows : List ResultRow
  nextId : Nat
  deriving DecidableEq

/-- The dict save_result_sync returns (created_at isoformat rendering elided;
note is the optional "deduped" tag). -/
structure SavedResult where
  id : Nat
  quiz_id : Option Int
  score : Int
  total : Int
  answers : JVal
  user : JVal
  created_at : Option Nat
  note : Option String
  deriving DecidableEq

/-- u = user if (user is None or isinstance(user, dict)) else ("raw": str(user)) -/
def normIncomingUser : JVal → JVal
  | .null => .null
  | .obj kvs => .obj kvs
  | v => .obj (.cons ("raw") (.str (pyStr v)) .nil)

/-- The SQL candidate filter: same score, total and quiz_id (IS NULL when the
incoming reference is None), created within the window.  A NULL created_at
never satisfies the >= cutoff comparison. -/
def candidateFilter (now : Nat) (window : Nat) (quiz_id : Option Int) (score total : Int)
    (r : ResultRow) : Bool :=
  decide (r.score = score) && decide (r.total = total) && decide (r.quiz_id = quiz_id) &&
    (match r.created_at with
     | none => false
     | some t => decide ((now : Int) - (window : Int) ≤ (t : Int)))

/-- Insert into a list sorted by created_at descending, keeping the incoming
row after strictly-newer rows (NULLs sort last, as SQLite orders DESC). -/
def insertDesc (r : ResultRow) : List ResultRow → List ResultRow
  | [] => [r]
  | x :: xs =>
    if (match r.created_at, x.created_at with
        | some a, some b => decide (b ≤ a)
        | some _, none => true
        | none, some _ => false
        | none, none => true) then r :: x :: xs
    else x :: insertDesc r xs

/-- order_by(Result.created_at.desc()) on the candidate list. -/
def sortDesc : List ResultRow → List ResultRow
  | [] => []
  | r :: rs => insertDesc r (sortDesc rs)

/-- The loop's normalization of a stored candidate user: a string is
json-parsed, wrapping it as a raw dict when parsing fails; anything else
passes through. -/
def normCandUser : JVal → JVal
  | .str s =>
    match jsonLoads s with
    | some v => v
    | none => .obj (.cons ("raw") (.str s) .nil)
  | v => v

/-- json.dumps(u, sort_keys=True, ...) if u is not None else "null" -/
def userCmpStr : JVal → String
  | .null => "null"
  | v => dumps v

/-- The candidate loop: skip candidates whose canonical answers differ, then
whose canonical user differs; return the first full match. -/
def findDup (ansNorm : String) (userStr : String) : List ResultRow → Option ResultRow
  | [] => none
  | c :: cs =>
    if dumps c.answers = ansNorm then
      if userCmpStr (normCandUser c.user) = userStr then some c
      else findDup ansNorm userStr cs
    else findDup ansNorm userStr cs

/-- services.save_result_sync: dedupe an identical attempt within the window,
otherwise insert.  now is datetime.utcnow() at call time. -/
def save_result_sync (now : Nat) (st : ResultStore) (quiz_id : Option Int) (score total : Int)
    (answers : JVal) (user : JVal) (window : Nat) : SavedResult × ResultStore :=
  let u := normIncomingUser user
  let answersNorm := dumps answers
  let candidates := sortDesc (st.rows.filter (candidateFilter now window quiz_id score total))
  match findDup answersNorm (userCmpStr u) candidates with
  | some cand =>
    ({ id := cand.id, quiz_id := cand.quiz_id, score := cand.score, total := cand.total,
       answers := cand.answers, user := cand.user, created_at := cand.created_at,
       note := some ("returned existing result (deduped)") }, st)
  | none =>
    ({ id := st.nextId, quiz_id := quiz_id, score := score, total := total,
       answers := answers, user := u, created_at := some now, note := none },
     { rows := st.rows ++ [{ id := st.nextId, quiz_id := quiz_id, score := score, total := total,
                             answers := answers, user := u, created_at := some now }],
       nextId := st.nextId + 1 })

-- ---------------------------------------------------------------------------
-- clean.py: make_user_key and cleanup
-- ---------------------------------------------------------------------------

/-- (u.get("email") or u.get("name") or u.get("raw") or ""): the first truthy
field value, else the empty-string literal. -/
def chainSelect (kvs : JObj) : JVal :=
  let e := (jGet kvs ("email")).getD .null
  if !falsy e then e
  else
    let n := (jGet kvs ("name")).getD .null
    if !falsy n then n
    else
      let r := (jGet kvs ("raw")).getD .null
      if !falsy r then r else .str ("")

/-- The tail of make_user_key after the optional json.loads: the dict branch
followed by str-coercion.  .strip() on a truthy non-string selected field
raises AttributeError, hence Except. -/
def makeUserKeyTail (v : JVal) : Except Unit String :=
  match v with
  | .obj kvs =>
    match chainSelect kvs with
    | .str s => .ok (pyLower (pyStrip s))
    | _ => .error ()
  | v => .ok (pyLower (pyStrip (pyStr v)))

/-- clean.make_user_key: falsy input yields ""; a string is json-parsed (raw
strip/lower on parse failure); a dict resolves email/name/raw; anything else
is str-coerced.  Raises (Except.error) only when a dict's first truthy
identity field is not a string. -/
def make_user_key (u : JVal) : Except Unit String :=
  if falsy u then .ok ("")
  else
    match u with
    | .str s =>
      match jsonLoads s with
      | none => .ok (pyLower (pyStrip s))
      | some parsed => makeUserKeyTail parsed
    | v => makeUserKeyTail v

/-- str(r.quiz_id): "None" for NULL. -/
def pyStrOptInt : Option Int → String
  | none => "None"
  | some n => intRepr n

/-- r.created_at.isoformat() if r.created_at else "" (under the epoch-second
datetime model, isoformat is the injective decimal rendering). -/
def isoOpt : Option Nat → String
  | none => ""
  | some t => natRepr t

/-- The sweep's equivalence key f"(quiz_id)|(uname)|(score)|(total)|(created_iso)". -/
def rowKey (r : ResultRow) (uname : String) : String :=
  String.mk ((pyStrOptInt r.quiz_id).data ++ '|' :: uname.data ++ '|' :: (intRepr r.score).data
    ++ '|' :: (intRepr r.total).data ++ '|' :: (isoOpt r.created_at).data)

/-- order_by(created_at.asc, id.asc): NULL timestamps first, id as tiebreak. -/
def rowSortLe (a b : ResultRow) : Bool :=
  match a.created_at, b.created_at with
  | none, none => decide (a.id ≤ b.id)
  | none, some _ => true
  | some _, none => false
  | some x, some y => decide (x < y) || (decide (x = y) && decide (a.id ≤ b.id))

def insertAsc (r : ResultRow) : List ResultRow → List ResultRow
  | [] => [r]
  | x :: xs => if rowSortLe r x then r :: x :: xs else x :: insertAsc r xs

def sortRowsAsc : List ResultRow → List ResultRow
  | [] => []
  | r :: rs => insertAsc r (sortRowsAsc rs)

/-- The duplicate-collection pass: walk rows in sorted order, remember seen
keys, record the id of every row whose key was already seen.  make_user_key
may raise, and the exception propagates. -/
def sweepAux : List String → List ResultRow → Except Unit (List Nat)
  | _, [] => .ok []
  | seen, r :: rs => do
    let uname ← make_user_key r.user
    let key := rowKey r uname
    if key ∈ seen then
      let ids ← sweepAux seen rs
      .ok (r.id :: ids)
    else
      sweepAux (key :: seen) rs

/-- session.delete of the first() row matching an id. -/
def deleteById : List ResultRow → Nat → List ResultRow
  | [], _ => []
  | r :: rs, rid => if r.id = rid then rs else r :: deleteById rs rid

/-- clean.cleanup: collect later duplicates over all rows oldest-first, delete
them.  The Python function prints the removed ids and returns None on every
path; the model returns the surviving rows together with that (always-none)
return value. -/
def cleanup (rows : List ResultRow) : Except Unit (List ResultRow × Option (List Nat)) := do
  let ids ← sweepAux [] (sortRowsAsc rows)
  if ids = [] then .ok (rows, none)
  else .ok (ids.foldl deleteById rows, none)

-- ---------------------------------------------------------------------------
-- routes.py /submit: grading loop and persistence-failure fallback
-- ---------------------------------------------------------------------------

/-- One entry of the detailed array built per question. -/
structure DetailEntry where
  questionIndex : Nat
  questionText : JVal
  selected : String
  selectedText : String
  correct : String
  correctText : String
  isCorrect : Bool
  explanation : JVal
  deriving DecidableEq

def jlistGet : JList → Nat → Option JVal
  | .nil, _ => none
  | .cons v _, 0 => some v
  | .cons _ tl, n+1 => jlistGet tl n

/-- userAns extraction with the surrounding try/except: list answers index
(IndexError, falsy element, or .strip() on a non-string all yield "");
dict answers look up the decimal index key (the numeric-key fallback
answers.get(idx) never hits a JSON dict) and str-coerce. -/
def extractUserAns (answers : JVal) (idx : Nat) : String :=
  match answers with
  | .arr xs =>
    match jlistGet xs idx with
    | none => ""
    | some e =>
      if falsy e then ""
      else
        match e with
        | .str s => pyStrip s
        | _ => ""
  | .obj kvs => pyStrip (pyStr ((jGet kvs (natRepr idx)).getD (.str (""))))
  | _ => ""

/-- Grade one question: q.get on a non-dict raises (propagates as a 500). -/
def gradeQuestion (answers : JVal) (idx : Nat) (q : JVal) : Except Unit DetailEntry :=
  match q with
  | .obj kvs =>
    let userAns := extractUserAns answers idx
    let userAnsNorm := pyLower (pyStrip userAns)
    let correct := pyStrip (pyStr ((jGet kvs ("correct_answer")).getD (.str (""))))
    let correctNorm := pyLower correct
    let isCorrect :=
      if userAnsNorm = "skipped question" ∨ userAns = "" then false
      else decide (userAnsNorm = correctNorm)
    .ok { questionIndex := idx, questionText := (jGet kvs ("question")).getD (.str ("")),
          selected := userAns, selectedText := userAns, correct := correct,
          correctText := correct, isCorrect := isCorrect,
          explanation := (jGet kvs ("explanation")).getD (.str ("")) }
  | _ => .error ()

/-- The grading loop: score counts the questions graded correct (the source
increments score exactly in the isCorrect branch), detailed collects the
per-question entries in order. -/
def gradeLoop (answers : JVal) : Nat → List JVal → Except Unit (Nat × List DetailEntry)
  | _, [] => .ok (0, [])
  | idx, q :: qs => do
    let d ← gradeQuestion answers idx q
    let r ← gradeLoop answers (idx+1) qs
    .ok ((if d.isCorrect then 1 else 0) + r.1, d :: r.2)

/-- saved_result in the response: the persisted dict, or the fallback built in
the except branch when save_result_sync raised. -/
inductive SavedField where
  | saved (r : SavedResult)
  | fallback (score : Nat) (total : Nat) (detailed : List DetailEntry) (error_saving : String)
  deriving DecidableEq

structure SubmitResponse where
  score : Nat
  total : Nat
  detailed : List DetailEntry
  saved_result : SavedField
  deriving DecidableEq

inductive HTTPError where
  | badRequest (detail : String)
  | internal
  deriving DecidableEq

/-- Is the answers payload a dict or a list (isinstance check)? -/
def answersShapeOk : JVal → Bool
  | .arr _ => true
  | .obj _ => true
  | _ => false

/-- routes.submit_answers from the point the question list is loaded: validate
the answers shape, grade, then persist.  persist stands for the
save_result_sync call on the live database (its quiz_id/user arguments live in
its closure); if it raises, the handler catches and answers with the computed
score, total and detail annotated with error_saving. -/
def submit_answers (questions : List JVal) (answers : JVal)
    (persist : Nat → Nat → List DetailEntry → Except String SavedResult) :
    Except HTTPError SubmitResponse :=
  if answersShapeOk answers then
    match gradeLoop answers 0 questions with
    | .error _ => .error .internal
    | .ok (score, detailed) =>
      let total := questions.length
      let saved : SavedField :=
        match persist score total detailed with
        | .ok r => .saved r
        | .error e => .fallback score total detailed e
      .ok { score := score, total := total, detailed := detailed, saved_result := saved }
  else .error (.badRequest ("Invalid answers format"))

-- ---------------------------------------------------------------------------
-- Shared concrete fixtures
-- ---------------------------------------------------------------------------

/-- A concrete valid question dict (the spec's end-to-end example). -/
def qEx : JVal :=
  .obj (JObj.ofList
    [("question", .str ("2+2?")),
     ("options", .arr (JList.ofList [.str ("1"), .str ("2"), .str ("3"), .str ("4")])),
     ("correct_answer", .str ("4"))])

/-- The detail entry the grading loop produces for qEx answered "4". -/
def entryEx : DetailEntry :=
  { questionIndex := 0, questionText := .str ("2+2?"), selected := "4", selectedText := "4",
    correct := "4", correctText := "4", isCorrect := true, explanation := .str ("") }

/-- List-level image of jobjInsert (proof helper). -/
def pairInsert (p : String × JVal) : List (String × JVal) → List (String × JVal)
  | [] => [p]
  | q :: qs => if strLe p.1 q.1 then p :: q :: qs else q :: pairInsert p qs

/-- List-level image of jobjSort (proof helper). -/
def pairSort : List (String × JVal) → List (String × JVal)
  | [] => []
  | p :: ps => pairInsert p (pairSort ps)

/-- ",".join (proof helper matching the serializer's comma placement). -/
def joinComma : List String → String
  | [] => ""
  | [s] => s
  | s :: rest => s ++ "," ++ joinComma rest

/-- The 256-bit digest as a single number, least-significant word first
(proof helper for counting digests). -/
def combineWords : List Nat → Nat
  | [] => 0
  | w :: ws => w + 4294967296 * combineWords ws

/-- qEx with one option string changed. -/
def qExOptChanged : JVal :=
  .obj (JObj.ofList
    [("question", .str ("2+2?")),
     ("options", .arr (JList.ofList [.str ("1"), .str ("2"), .str ("3"), .str ("5")])),
     ("correct_answer", .str ("4"))])

/-- qEx with the correct answer changed. -/
def qExAnswerChanged : JVal :=
  .obj (JObj.ofList
    [("question", .str ("2+2?")),
     ("options", .arr (JList.ofList [.str ("1"), .str ("2"), .str ("3"), .str ("4")])),
     ("correct_answer", .str ("2"))])

/-- Decimal value of a digit-char list (proof helper for natRepr). -/
def valDigits (ds : List Char) : Nat :=
  List.foldl (fun acc c => acc * 10 + (c.toNat - 48)) 0 ds

/-- The user name the sweep computes for a row (its make_user_key output; ""
when make_user_key raises, in which case the sweep itself raises first). -/
def unameOf (r : ResultRow) : String :=
  match make_user_key r.user with
  | .ok s => s
  | .error _ => ""

/-- The sweep's key string of a row. -/
def keyOf (r : ResultRow) : String := rowKey r (unameOf r)

/-- The sweep's key read as the tuple the spec describes. -/
def keyTupleOf (r : ResultRow) : Option Int × String × Int × Int × Option Nat :=
  (r.quiz_id, unameOf r, r.score, r.total, r.created_at)

/-- Three stored attempts that share one exact sweep key (a double-click
duplicate burst landing within one second). -/
def dupRow (i : Nat) : ResultRow :=
  { id := i, quiz_id := some 1, score := 3, total := 5, answers := .arr .nil,
    user := .obj (.cons ("email") (.str ("a@x.com")) .nil), created_at := some 100 }

/-- A stored quiz row holding qEx under the placeholder title. -/
def quizRowEx : QuizRow :=
  { id := 1, title := some ("Uploaded Quiz"), questions := [qEx],
    fingerprint := _questions_fingerprint [qEx], created_at := 50 }

/-- The row save_result_sync's insert branch appends (for the proofs below). -/
def insertedRow (nid : Nat) (now : Nat) (qid : Option Int) (score total : Int)
    (answers u : JVal) : ResultRow :=
  { id := nid, quiz_id := qid, score := score, total := total,
    answers := answers, user := u, created_at := some now }

/-- The dict save_result_sync's insert branch returns (for the proofs below). -/
def insertedSaved (nid : Nat) (now : Nat) (qid : Option Int) (score total : Int)
    (answers u : JVal) : SavedResult :=
  { id := nid, quiz_id := qid, score := score, total := total,
    answers := answers, user := u, created_at := some now, note := none }

-- ---------------------------------------------------------------------------
-- Theorems
-- ---------------------------------------------------------------------------

/-- C6: the spec says make_user_key never raises for any input, but the code
calls .strip() on whatever the email/name/raw chain selects; on the dict
input ("email": 5) the selected value is the integer 5 and the call raises
AttributeError.  This theorem evaluates the embedded code at that failing
input. -/
theorem make_user_key_raises_on_int_email :
    make_user_key (.obj (.cons ("email") (.int 5) .nil)) = .error () := by decide

/-- C10: save_result_sync normalizes the two sides asymmetrically -- an
incoming non-dict user is wrapped as a raw dict via str(), while a stored
candidate string user is json-parsed into a structure -- so a call whose
incoming user is the JSON-encoded string of a stored candidate's structured
user (same quiz reference, score, total, answers, within the window) inserts
a new row instead of reusing the semantically identical candidate. -/
theorem save_result_user_normalization_asymmetry :
    (∀ s : String, normIncomingUser (.str s) = .obj (.cons ("raw") (.str s) .nil))
    ∧ normCandUser (.str ("\x7b\"email\":\"a@x.com\"\x7d"))
        = .obj (.cons ("email") (.str ("a@x.com")) .nil)
    ∧ (let stored : ResultRow :=
         { id := 1, quiz_id := some 1, score := 3, total := 5, answers := .arr .nil,
           user := .obj (.cons ("email") (.str ("a@x.com")) .nil), created_at := some 100 }
       let st1 : ResultStore := { rows := [stored], nextId := 2 }
       let res := save_result_sync 105 st1 (some 1) 3 5 (.arr .nil)
         (.str (dumps (.obj (.cons ("email") (.str ("a@x.com")) .nil)))) 15
       res.1.note = none ∧ res.1.id = 2 ∧ res.2.rows.length = 2) :=
  ⟨fun _ => rfl, by decide, by decide⟩

/-- C8: when the save_result_sync call raises, submit_answers still returns a
successful response carrying the freshly computed score, total and detailed
payload, with the failure downgraded into the error_saving annotation; no
exception reaches the HTTP client. -/
theorem submit_downgrades_save_failure (questions : List JVal) (answers : JVal)
    (persist : Nat → Nat → List DetailEntry → Except String SavedResult)
    (s : Nat) (d : List DetailEntry) (e : String)
    (hshape : answersShapeOk answers = true)
    (hgrade : gradeLoop answers 0 questions = .ok (s, d))
    (hfail : persist s questions.length d = .error e) :
    submit_answers questions answers persist =
      .ok { score := s, total := questions.length, detailed := d,
            saved_result := .fallback s questions.length d e } := by
  simp [submit_answers, hshape, hgrade, hfail]

/-- Witness for C8 at a concrete request whose persistence step fails. -/
theorem submit_downgrades_save_failure_witness :
    (answersShapeOk (.arr (JList.ofList [.str ("4")])) = true
     ∧ gradeLoop (.arr (JList.ofList [.str ("4")])) 0 [qEx] = .ok (1, [entryEx])
     ∧ (fun (_ : Nat) (_ : Nat) (_ : List DetailEntry) =>
          (.error ("db down") : Except String SavedResult)) 1 1 [entryEx] = .error ("db down"))
    ∧ submit_answers [qEx] (.arr (JList.ofList [.str ("4")]))
        (fun _ _ _ => .error ("db down")) =
        .ok { score := 1, total := 1, detailed := [entryEx],
              saved_result := .fallback 1 1 [entryEx] ("db down") } :=
  ⟨⟨by decide, by decide, rfl⟩,
   submit_downgrades_save_failure [qEx] (.arr (JList.ofList [.str ("4")]))
     (fun _ _ _ => .error ("db down")) 1 [entryEx] ("db down") (by decide) (by decide) rfl⟩

/-- The grading loop's invariant: the score is the number of detail entries
flagged correct, and one entry is produced per question. -/
theorem gradeLoop_count (answers : JVal) :
    ∀ (qs : List JVal) (idx : Nat) (s : Nat) (d : List DetailEntry),
      gradeLoop answers idx qs = .ok (s, d) →
      s = d.countP (fun x => x.isCorrect) ∧ d.length = qs.length := by
  intro qs
  induction qs with
  | nil =>
    intro idx s d h
    simp [gradeLoop] at h
    obtain ⟨hs, hd⟩ := h
    subst hs; subst hd
    simp
  | cons q qs ih =>
    intro idx s d h
    simp only [gradeLoop, bind, Except.bind] at h
    cases hq : gradeQuestion answers idx q with
    | error err => rw [hq] at h; exact absurd h (by simp)
    | ok entry =>
      rw [hq] at h
      cases hr : gradeLoop answers (idx+1) qs with
      | error err => rw [hr] at h; exact absurd h (by simp)
      | ok pr =>
        rw [hr] at h
        simp only [Except.ok.injEq, Prod.mk.injEq] at h
        obtain ⟨hs, hd⟩ := h
        obtain ⟨ih1, ih2⟩ := ih (idx+1) pr.1 pr.2 (by rw [hr])
        subst hs
        subst hd
        constructor
        · simp [List.countP_cons, ih1]
          cases entry.isCorrect <;> simp [Nat.add_comm]
        · simp [ih2]

/-- C9: every result computed by the submit grading flow satisfies: total is
the (positive) number of questions graded, one detail entry per question,
score is a non-negative integer (a Nat here) at most total, and score equals
exactly the number of detail entries whose isCorrect flag is true. -/
theorem submit_grading_invariants (questions : List JVal) (answers : JVal)
    (s : Nat) (d : List DetailEntry)
    (hne : questions ≠ [])
    (hgrade : gradeLoop answers 0 questions = .ok (s, d)) :
    0 < questions.length ∧ d.length = questions.length ∧ s ≤ questions.length
    ∧ s = d.countP (fun x => x.isCorrect) := by
  obtain ⟨hcount, hlen⟩ := gradeLoop_count answers questions 0 s d hgrade
  refine ⟨List.length_pos.mpr hne, hlen, ?_, hcount⟩
  calc s = d.countP (fun x => x.isCorrect) := hcount
    _ ≤ d.length := List.countP_le_length _
    _ = questions.length := hlen

/-- A row that fails the (quiz_id, score, total) key never passes the
candidate filter, at any time and window. -/
theorem candidateFilter_false_of_key (now w : Nat) (qid : Option Int) (score total : Int)
    (r : ResultRow) (h : ¬(r.quiz_id = qid ∧ r.score = score ∧ r.total = total)) :
    candidateFilter now w qid score total r = false := by
  unfold candidateFilter
  by_cases h1 : r.score = score
  · by_cases h2 : r.total = total
    · by_cases h3 : r.quiz_id = qid
      · exact absurd ⟨h3, h1, h2⟩ h
      · simp [h1, h2, h3]
    · simp [h2]
  · simp [h1]

/-- The candidate-side normalization is the identity on an already-normalized
incoming user (None or a dict; never a string). -/
theorem normCandUser_normIncomingUser (user : JVal) :
    normCandUser (normIncomingUser user) = normIncomingUser user := by
  cases user <;> simp [normIncomingUser, normCandUser]

/-- C2: two save_result_sync calls with identical arguments, the second less
than the window after the first call's row was created, store exactly one row:
the first inserts, the second inserts nothing, both return the same id, and
the second is tagged as a deduped reuse. -/
theorem save_result_dedupes_within_window (st0 : ResultStore) (t1 t2 w : Nat)
    (qid : Option Int) (score total : Int) (answers user : JVal)
    (hfresh : ∀ r ∈ st0.rows, ¬(r.quiz_id = qid ∧ r.score = score ∧ r.total = total))
    (ht : t1 ≤ t2) (hwin : (t2 : Int) - (t1 : Int) < (w : Int)) :
    let r1 := save_result_sync t1 st0 qid score total answers user w
    let r2 := save_result_sync t2 r1.2 qid score total answers user w
    (r1.1.id = st0.nextId ∧ r1.1.note = none ∧ r1.2.rows.length = st0.rows.length + 1)
    ∧ (r2.1.id = st0.nextId ∧ r2.1.note = some ("returned existing result (deduped)")
       ∧ r2.2 = r1.2)
    ∧ (r1.2.rows.filter (candidateFilter t2 w qid score total)).length = 1 := by
  intro r1 r2
  have hfil1 : st0.rows.filter (candidateFilter t1 w qid score total) = [] :=
    List.filter_eq_nil_iff.mpr (fun r hr => by
      simp [candidateFilter_false_of_key t1 w qid score total r (hfresh r hr)])
  have hfil0 : st0.rows.filter (candidateFilter t2 w qid score total) = [] :=
    List.filter_eq_nil_iff.mpr (fun r hr => by
      simp [candidateFilter_false_of_key t2 w qid score total r (hfresh r hr)])
  have h1 : r1 = (insertedSaved st0.nextId t1 qid score total answers (normIncomingUser user),
      ⟨st0.rows ++ [insertedRow st0.nextId t1 qid score total answers (normIncomingUser user)],
       st0.nextId + 1⟩) := by
    show save_result_sync t1 st0 qid score total answers user w = _
    unfold save_result_sync
    rw [hfil1]
    simp [sortDesc, findDup, insertedSaved, insertedRow]
  have hnew : candidateFilter t2 w qid score total
      (insertedRow st0.nextId t1 qid score total answers (normIncomingUser user)) = true := by
    simp only [candidateFilter, insertedRow]
    simp only [Bool.and_eq_true, decide_eq_true_eq]
    refine ⟨by simp, by omega⟩
  have h2 : r2.1 = { insertedSaved st0.nextId t1 qid score total answers (normIncomingUser user)
        with note := some ("returned existing result (deduped)") } ∧ r2.2 = r1.2 := by
    show (save_result_sync t2 r1.2 qid score total answers user w).1 = _
      ∧ (save_result_sync t2 r1.2 qid score total answers user w).2 = _
    unfold save_result_sync
    rw [h1]
    simp only [List.filter_append, hfil0, List.nil_append, List.filter_cons, hnew,
      List.filter_nil, if_true]
    simp [sortDesc, insertDesc, findDup, normCandUser_normIncomingUser, insertedRow, insertedSaved]
  constructor
  · rw [h1]; simp [insertedSaved]
  constructor
  · rw [h2.1, h2.2]; simp [h1, insertedSaved]
  · rw [h1]
    simp [List.filter_append, hfil0, List.filter_cons, hnew]

/-- Witness for C2 on an empty store, with the second call 10 s after the
first and the default 15 s window. -/
theorem save_result_dedupes_within_window_witness :
    ((∀ r ∈ ({ rows := [], nextId := 1 } : ResultStore).rows,
        ¬(r.quiz_id = some 1 ∧ r.score = 3 ∧ r.total = 5))
     ∧ 100 ≤ 110 ∧ (110 : Int) - (100 : Int) < (15 : Int))
    ∧ (let r1 := save_result_sync 100 { rows := [], nextId := 1 } (some 1) 3 5
         (.arr .nil) (.obj (.cons ("email") (.str ("a@x.com")) .nil)) 15
       let r2 := save_result_sync 110 r1.2 (some 1) 3 5
         (.arr .nil) (.obj (.cons ("email") (.str ("a@x.com")) .nil)) 15
       (r1.1.id = 1 ∧ r1.1.note = none ∧ r1.2.rows.length = 0 + 1)
       ∧ (r2.1.id = 1 ∧ r2.1.note = some ("returned existing result (deduped)")
          ∧ r2.2 = r1.2)
       ∧ (r1.2.rows.filter (candidateFilter 110 15 (some 1) 3 5)).length = 1) :=
  ⟨⟨fun r hr => absurd hr (List.not_mem_nil r), by omega, by omega⟩,
   save_result_dedupes_within_window { rows := [], nextId := 1 } 100 110 15 (some 1) 3 5
     (.arr .nil) (.obj (.cons ("email") (.str ("a@x.com")) .nil))
     (fun r hr => absurd hr (List.not_mem_nil r)) (by omega) (by omega)⟩

/-- C3: an identical submission arriving strictly after the window has elapsed
is not deduped: the second call inserts a new row, so the store ends up with
two rows (and the two calls return distinct ids). -/
theorem save_result_inserts_after_window (st0 : ResultStore) (t1 t2 w : Nat)
    (qid : Option Int) (score total : Int) (answers user : JVal)
    (hfresh : ∀ r ∈ st0.rows, ¬(r.quiz_id = qid ∧ r.score = score ∧ r.total = total))
    (hwin : (w : Int) < (t2 : Int) - (t1 : Int)) :
    let r1 := save_result_sync t1 st0 qid score total answers user w
    let r2 := save_result_sync t2 r1.2 qid score total answers user w
    (r1.1.id = st0.nextId ∧ r1.1.note = none ∧ r1.2.rows.length = st0.rows.length + 1)
    ∧ (r2.1.id = st0.nextId + 1 ∧ r2.1.note = none
       ∧ r2.2.rows.length = st0.rows.length + 2 ∧ r2.1.id ≠ r1.1.id) := by
  intro r1 r2
  have hfil1 : st0.rows.filter (candidateFilter t1 w qid score total) = [] :=
    List.filter_eq_nil_iff.mpr (fun r hr => by
      simp [candidateFilter_false_of_key t1 w qid score total r (hfresh r hr)])
  have hfil0 : st0.rows.filter (candidateFilter t2 w qid score total) = [] :=
    List.filter_eq_nil_iff.mpr (fun r hr => by
      simp [candidateFilter_false_of_key t2 w qid score total r (hfresh r hr)])
  have h1 : r1 = (insertedSaved st0.nextId t1 qid score total answers (normIncomingUser user),
      ⟨st0.rows ++ [insertedRow st0.nextId t1 qid score total answers (normIncomingUser user)],
       st0.nextId + 1⟩) := by
    show save_result_sync t1 st0 qid score total answers user w = _
    unfold save_result_sync
    rw [hfil1]
    simp [sortDesc, findDup, insertedSaved, insertedRow]
  have hnew : candidateFilter t2 w qid score total
      (insertedRow st0.nextId t1 qid score total answers (normIncomingUser user)) = false := by
    simp only [candidateFilter, insertedRow]
    have hlt : ¬((t2 : Int) - (w : Int) ≤ (t1 : Int)) := by omega
    simp [hlt]
  have h2 : r2.1.id = st0.nextId + 1 ∧ r2.1.note = none
      ∧ r2.2.rows.length = st0.rows.length + 2 := by
    show (save_result_sync t2 r1.2 qid score total answers user w).1.id = st0.nextId + 1
      ∧ (save_result_sync t2 r1.2 qid score total answers user w).1.note = none
      ∧ (save_result_sync t2 r1.2 qid score total answers user w).2.rows.length
          = st0.rows.length + 2
    unfold save_result_sync
    rw [h1]
    simp only [List.filter_append, hfil0, List.nil_append, List.filter_cons, hnew,
      Bool.false_eq_true, if_false, List.filter_nil]
    simp [sortDesc, findDup, insertedRow, insertedSaved]
  refine ⟨by rw [h1]; simp [insertedSaved], h2.1, h2.2.1, h2.2.2, ?_⟩
  rw [h1]
  simp [h2.1, insertedSaved]

/-- Witness for C3 on an empty store, with the second call 16 s after the
first and the default 15 s window. -/
theorem save_result_inserts_after_window_witness :
    ((∀ r ∈ ({ rows := [], nextId := 1 } : ResultStore).rows,
        ¬(r.quiz_id = some 1 ∧ r.score = 3 ∧ r.total = 5))
     ∧ (15 : Int) < (116 : Int) - (100 : Int))
    ∧ (let r1 := save_result_sync 100 { rows := [], nextId := 1 } (some 1) 3 5
         (.arr .nil) (.obj (.cons ("email") (.str ("a@x.com")) .nil)) 15
       let r2 := save_result_sync 116 r1.2 (some 1) 3 5
         (.arr .nil) (.obj (.cons ("email") (.str ("a@x.com")) .nil)) 15
       (r1.1.id = 1 ∧ r1.1.note = none ∧ r1.2.rows.length = 0 + 1)
       ∧ (r2.1.id = 1 + 1 ∧ r2.1.note = none
          ∧ r2.2.rows.length = 0 + 2 ∧ r2.1.id ≠ r1.1.id)) :=
  ⟨⟨fun r hr => absurd hr (List.not_mem_nil r), by omega⟩,
   save_result_inserts_after_window { rows := [], nextId := 1 } 100 116 15 (some 1) 3 5
     (.arr .nil) (.obj (.cons ("email") (.str ("a@x.com")) .nil))
     (fun r hr => absurd hr (List.not_mem_nil r)) (by omega)⟩

/-- find? skips a block of rows none of which carry the fingerprint. -/
theorem find?_fp_append (fp : String) (l1 l2 : List QuizRow)
    (h : ∀ r ∈ l1, r.fingerprint ≠ fp) :
    (l1 ++ l2).find? (fun r => decide (r.fingerprint = fp))
      = l2.find? (fun r => decide (r.fingerprint = fp)) := by
  induction l1 with
  | nil => simp
  | cons r rs ih =>
    have hr : r.fingerprint ≠ fp := h r (List.mem_cons_self r rs)
    rw [List.cons_append, List.find?_cons_of_neg _ (by simpa using hr)]
    exact ih (fun x hx => h x (List.mem_cons_of_mem r hx))

/-- backfillTitle rewrites exactly the first row carrying the fingerprint. -/
theorem backfillTitle_append (fp : String) (title : Option String) (l1 : List QuizRow)
    (row : QuizRow) (h : ∀ r ∈ l1, r.fingerprint ≠ fp) (hrow : row.fingerprint = fp) :
    backfillTitle fp title (l1 ++ [row]) = l1 ++ [{ row with title := title }] := by
  induction l1 with
  | nil => simp [backfillTitle, hrow]
  | cons r rs ih =>
    have hr : r.fingerprint ≠ fp := h r (List.mem_cons_self r rs)
    show backfillTitle fp title (r :: (rs ++ [row])) = _
    rw [backfillTitle, if_neg hr, ih (fun x hx => h x (List.mem_cons_of_mem r hx))]
    simp

/-- Every call after the first resolves to the existing row: same id every
time, the store keeps the same shape except possibly the backfilled title. -/
theorem saveQuizCalls_found (Q : List JVal) (calls : List (Nat × Option String)) :
    ∀ (base : List QuizRow) (row : QuizRow) (nid : Nat),
      (∀ r ∈ base, r.fingerprint ≠ _questions_fingerprint Q) →
      row.fingerprint = _questions_fingerprint Q →
      ∃ t', saveQuizCalls Q { rows := base ++ [row], nextId := nid } calls
        = (List.replicate calls.length row.id,
           { rows := base ++ [{ row with title := t' }], nextId := nid }) := by
  induction calls with
  | nil =>
    intro base row nid hbase hrow
    exact ⟨row.title, by simp [saveQuizCalls]⟩
  | cons c rest ih =>
    intro base row nid hbase hrow
    have hfind : (base ++ [row]).find? (fun r => decide (r.fingerprint = _questions_fingerprint Q))
        = some row := by
      rw [find?_fp_append _ _ _ hbase]
      simp [List.find?_cons, hrow]
    by_cases hcond : (titleTruthy c.2 && placeholderTitle row.title
        && decide (c.2 ≠ row.title)) = true
    · obtain ⟨t', ht'⟩ := ih base { row with title := c.2 } nid hbase hrow
      refine ⟨t', ?_⟩
      simp only [saveQuizCalls, save_quiz_to_db_sync, hfind, hcond, if_true,
        backfillTitle_append _ _ _ _ hbase hrow]
      rw [ht']
      simp [List.replicate_succ]
    · obtain ⟨t', ht'⟩ := ih base row nid hbase hrow
      refine ⟨t', ?_⟩
      rw [Bool.not_eq_true] at hcond
      simp only [saveQuizCalls, save_quiz_to_db_sync, hfind, hcond, Bool.false_eq_true, if_false]
      rw [ht']
      simp [List.replicate_succ]

/-- C1: starting from a store holding no quiz with the fingerprint of a valid
question list Q, any N >= 1 save_quiz_to_db_sync calls with Q return the same
id every time, and the store ends up with exactly one row carrying that
fingerprint. -/
theorem save_quiz_idempotent (st0 : QuizStore) (Q : List JVal)
    (calls : List (Nat × Option String))
    (hvalid : validQuestions Q = true)
    (hfresh : ∀ r ∈ st0.rows, r.fingerprint ≠ _questions_fingerprint Q)
    (hn : calls ≠ []) :
    (saveQuizCalls Q st0 calls).1 = List.replicate calls.length st0.nextId
    ∧ ((saveQuizCalls Q st0 calls).2.rows.countP
        (fun r => decide (r.fingerprint = _questions_fingerprint Q))) = 1 := by
  obtain ⟨c, rest, rfl⟩ := List.exists_cons_of_ne_nil hn
  have hfind0 : st0.rows.find? (fun r => decide (r.fingerprint = _questions_fingerprint Q))
      = none := by
    rw [List.find?_eq_none]
    intro r hr
    simpa using hfresh r hr
  have hfirst : save_quiz_to_db_sync c.1 st0 c.2 Q
      = (st0.nextId,
         { rows := st0.rows ++ [{ id := st0.nextId, title := c.2, questions := Q,
                                  fingerprint := _questions_fingerprint Q, created_at := c.1 }],
           nextId := st0.nextId + 1 }) := by
    simp only [save_quiz_to_db_sync]
    rw [hfind0]
  obtain ⟨t', ht'⟩ := saveQuizCalls_found Q rest st0.rows
    { id := st0.nextId, title := c.2, questions := Q,
      fingerprint := _questions_fingerprint Q, created_at := c.1 } (st0.nextId + 1) hfresh rfl
  have hsteps : saveQuizCalls Q st0 (c :: rest)
      = (st0.nextId :: List.replicate rest.length st0.nextId,
         { rows := st0.rows ++ [{ id := st0.nextId, title := t', questions := Q,
                                  fingerprint := _questions_fingerprint Q, created_at := c.1 }],
           nextId := st0.nextId + 1 }) := by
    simp only [saveQuizCalls, hfirst]
    rw [ht']
  rw [hsteps]
  constructor
  · simp [List.replicate_succ]
  · rw [List.countP_append]
    have h0 : st0.rows.countP (fun r => decide (r.fingerprint = _questions_fingerprint Q)) = 0 := by
      rw [List.countP_eq_zero]
      intro r hr
      simpa using hfresh r hr
    simp [h0, List.countP_cons]

/-- Witness for C1: three identical submissions into an empty store. -/
theorem save_quiz_idempotent_witness :
    (validQuestions [qEx] = true
     ∧ (∀ r ∈ ({ rows := [], nextId := 1 } : QuizStore).rows,
          r.fingerprint ≠ _questions_fingerprint [qEx])
     ∧ ([(100, some ("Math")), (200, some ("Math")), (300, none)]
          : List (Nat × Option String)) ≠ [])
    ∧ (saveQuizCalls [qEx] { rows := [], nextId := 1 }
         [(100, some ("Math")), (200, some ("Math")), (300, none)]).1
        = List.replicate 3 1
    ∧ ((saveQuizCalls [qEx] { rows := [], nextId := 1 }
         [(100, some ("Math")), (200, some ("Math")), (300, none)]).2.rows.countP
        (fun r => decide (r.fingerprint = _questions_fingerprint [qEx]))) = 1 :=
  ⟨⟨by decide, fun r hr => absurd hr (List.not_mem_nil r), by decide⟩,
   save_quiz_idempotent { rows := [], nextId := 1 } [qEx]
     [(100, some ("Math")), (200, some ("Math")), (300, none)]
     (by decide) (fun r hr => absurd hr (List.not_mem_nil r)) (by decide)⟩

/-- backfillTitle is List.set at the index find? located. -/
theorem backfillTitle_eq_set (fp : String) (title : Option String) :
    ∀ (l : List QuizRow) (ex : QuizRow),
      l.find? (fun r => decide (r.fingerprint = fp)) = some ex →
      ∃ i, ∃ h : i < l.length, l.get ⟨i, h⟩ = ex
        ∧ backfillTitle fp title l = l.set i { ex with title := title } := by
  intro l
  induction l with
  | nil => intro ex h; simp at h
  | cons r rs ih =>
    intro ex h
    by_cases hr : r.fingerprint = fp
    · have : ex = r := by
        simp [List.find?_cons, hr] at h
        exact h.symm
      subst this
      exact ⟨0, by simp, rfl, by simp [backfillTitle, hr]⟩
    · have h' : rs.find? (fun r => decide (r.fingerprint = fp)) = some ex := by
        simpa [List.find?_cons, hr] using h
      obtain ⟨i, hi, hget, hset⟩ := ih ex h'
      exact ⟨i + 1, by simpa using hi, by simpa using hget, by simp [backfillTitle, hr, hset]⟩

/-- C5: when save_quiz_to_db_sync finds an existing quiz with the same
fingerprint it returns that id without inserting; the stored title is
rewritten to the proposed title exactly when the proposed title is truthy,
the existing one is None/empty/placeholder and the two differ; in particular
a non-placeholder title is never overwritten. -/
theorem save_quiz_title_backfill (now : Nat) (st : QuizStore) (title : Option String)
    (Q : List JVal) (ex : QuizRow)
    (hfound : st.rows.find? (fun r => decide (r.fingerprint = _questions_fingerprint Q))
      = some ex) :
    let res := save_quiz_to_db_sync now st title Q
    res.1 = ex.id
    ∧ res.2.rows.length = st.rows.length
    ∧ res.2.nextId = st.nextId
    ∧ ((titleTruthy title && placeholderTitle ex.title && decide (title ≠ ex.title)) = true →
        ∃ i, ∃ h : i < st.rows.length, st.rows.get ⟨i, h⟩ = ex
          ∧ res.2.rows = st.rows.set i { ex with title := title })
    ∧ (¬((titleTruthy title && placeholderTitle ex.title && decide (title ≠ ex.title)) = true) →
        res.2 = st)
    ∧ (placeholderTitle ex.title = false → res.2 = st) := by
  intro res
  by_cases hcond : (titleTruthy title && placeholderTitle ex.title
      && decide (title ≠ ex.title)) = true
  · have hres : res = (ex.id,
        { st with rows := backfillTitle (_questions_fingerprint Q) title st.rows }) := by
      show save_quiz_to_db_sync now st title Q = _
      simp only [save_quiz_to_db_sync]
      rw [hfound]
      simp only [hcond, if_true]
    obtain ⟨i, hi, hget, hset⟩ := backfillTitle_eq_set (_questions_fingerprint Q) title
      st.rows ex hfound
    refine ⟨by rw [hres], ?_, by rw [hres], ?_, ?_, ?_⟩
    · rw [hres]; simp [hset]
    · intro _; exact ⟨i, hi, hget, by rw [hres]; simpa using hset⟩
    · intro hc; exact absurd hcond hc
    · intro hp
      exfalso
      rw [Bool.and_assoc] at hcond
      have := (Bool.and_eq_true _ _).mp hcond
      rw [hp] at this
      simp at this
  · have hres : res = (ex.id, st) := by
      show save_quiz_to_db_sync now st title Q = _
      simp only [save_quiz_to_db_sync]
      rw [hfound]
      rw [Bool.not_eq_true] at hcond
      simp only [hcond, Bool.false_eq_true, if_false]
    refine ⟨by rw [hres], by rw [hres], by rw [hres], ?_, fun _ => by rw [hres], fun _ => by rw [hres]⟩
    intro hc; exact absurd hc hcond

/-- Witness for C5: a store whose single row holds qEx under the placeholder
title; the id is reused and no row is inserted. -/
theorem save_quiz_title_backfill_witness :
    ([quizRowEx].find?
        (fun r => decide (r.fingerprint = _questions_fingerprint [qEx])) = some quizRowEx)
    ∧ ((save_quiz_to_db_sync 100 { rows := [quizRowEx], nextId := 2 }
          (some ("Math")) [qEx]).1 = quizRowEx.id
       ∧ (save_quiz_to_db_sync 100 { rows := [quizRowEx], nextId := 2 }
          (some ("Math")) [qEx]).2.rows.length
          = ({ rows := [quizRowEx], nextId := 2 } : QuizStore).rows.length) := by
  have hfound : ([quizRowEx].find?
      (fun r => decide (r.fingerprint = _questions_fingerprint [qEx]))) = some quizRowEx := by
    rw [List.find?_cons_of_pos]
    simp [quizRowEx]
  have h := save_quiz_title_backfill 100 { rows := [quizRowEx], nextId := 2 }
    (some ("Math")) [qEx] quizRowEx hfound
  exact ⟨hfound, h.1, h.2.1⟩

/-- Two strings with the same character data are equal. -/
theorem strData_inj {a b : String} (h : a.data = b.data) : a = b := by
  cases a; cases b; exact congrArg String.mk h

theorem digitChar_toNat (d : Nat) (h : d < 10) : (digitChar d).toNat = 48 + d := by
  interval_cases d <;> decide

/-- Every character natReprAux emits is a decimal digit character. -/
theorem natReprAux_chars : ∀ (f n : Nat), n < f →
    ∀ c ∈ natReprAux f n, ∃ d, d < 10 ∧ c = digitChar d := by
  intro f
  induction f with
  | zero => intro n h; omega
  | succ f ih =>
    intro n hn c hc
    by_cases h10 : n < 10
    · simp [natReprAux, h10] at hc
      exact ⟨n, h10, hc⟩
    · simp only [natReprAux, h10, if_false] at hc
      rcases List.mem_append.mp hc with h1 | h2
      · exact ih (n / 10) (by omega) c h1
      · simp at h2
        exact ⟨n % 10, by omega, h2⟩

/-- natReprAux is nonempty with adequate fuel. -/
theorem natReprAux_ne_nil : ∀ (f n : Nat), n < f → natReprAux f n ≠ [] := by
  intro f n h
  cases f with
  | zero => omega
  | succ f => by_cases h10 : n < 10 <;> simp [natReprAux, h10]

/-- natReprAux starts with a digit character. -/
theorem natReprAux_head : ∀ (f n : Nat), n < f →
    ∃ d tl, d < 10 ∧ natReprAux f n = digitChar d :: tl := by
  intro f
  induction f with
  | zero => intro n h; omega
  | succ f ih =>
    intro n hn
    by_cases h10 : n < 10
    · exact ⟨n, [], h10, by simp [natReprAux, h10]⟩
    · obtain ⟨d, tl, hd, htl⟩ := ih (n / 10) (by omega)
      exact ⟨d, tl ++ [digitChar (n % 10)], hd, by simp [natReprAux, h10, htl]⟩

/-- Decimal rendering evaluates back to its number (roundtrip). -/
theorem valDigits_natReprAux : ∀ (f n : Nat), n < f →
    valDigits (natReprAux f n) = n := by
  intro f
  induction f with
  | zero => intro n h; omega
  | succ f ih =>
    intro n hn
    by_cases h10 : n < 10
    · simp [natReprAux, h10, valDigits, digitChar_toNat n h10]
    · simp only [natReprAux, h10, if_false]
      have hval : valDigits (natReprAux f (n / 10) ++ [digitChar (n % 10)])
          = valDigits (natReprAux f (n / 10)) * 10 + ((digitChar (n % 10)).toNat - 48) := by
        simp [valDigits, List.foldl_append]
      rw [hval, ih (n / 10) (by omega), digitChar_toNat _ (by omega)]
      omega

/-- Python decimal rendering of a Nat is injective. -/
theorem natRepr_inj {m n : Nat} (h : natRepr m = natRepr n) : m = n := by
  have hm := valDigits_natReprAux (m+1) m (by omega)
  have hn := valDigits_natReprAux (n+1) n (by omega)
  have hdata : natReprAux (m+1) m = natReprAux (n+1) n := by
    have := congrArg String.data h
    simpa [natRepr] using this
  rw [← hm, ← hn, hdata]

theorem natRepr_no_pipe (n : Nat) : '|' ∉ (natRepr n).data := by
  intro hmem
  simp only [natRepr] at hmem
  obtain ⟨d, hd, hc⟩ := natReprAux_chars (n+1) n (by omega) '|' hmem
  have h1 := digitChar_toNat d hd
  rw [← hc] at h1
  have h2 : ('|').toNat = 124 := rfl
  omega

theorem natRepr_ne_empty (n : Nat) : natRepr n ≠ "" := by
  intro h
  have := congrArg String.data h
  simp [natRepr] at this
  exact natReprAux_ne_nil (n+1) n (by omega) this

theorem intRepr_no_pipe (n : Int) : '|' ∉ (intRepr n).data := by
  cases n with
  | ofNat m => simpa [intRepr] using natRepr_no_pipe m
  | negSucc m =>
    intro h
    simp only [intRepr, String.data_append] at h
    rcases List.mem_append.mp h with h1 | h2
    · simp at h1
    · exact natRepr_no_pipe (m+1) h2

/-- Python decimal rendering of an int is injective. -/
theorem intRepr_inj {a b : Int} (h : intRepr a = intRepr b) : a = b := by
  have hdata := congrArg String.data h
  cases a with
  | ofNat m =>
    cases b with
    | ofNat n =>
      simp only [intRepr] at h
      rw [natRepr_inj h]
    | negSucc n =>
      exfalso
      simp only [intRepr, String.data_append, natRepr] at hdata
      obtain ⟨d, tl, hd, htl⟩ := natReprAux_head (m+1) m (by omega)
      rw [htl] at hdata
      simp only [List.singleton_append] at hdata
      have hhead : digitChar d = '-' := ((List.cons.injEq _ _ _ _).mp hdata).1
      have := digitChar_toNat d hd
      rw [hhead] at this
      have h2 : ('-').toNat = 45 := rfl
      omega
  | negSucc m =>
    cases b with
    | ofNat n =>
      exfalso
      simp only [intRepr, String.data_append, natRepr] at hdata
      obtain ⟨d, tl, hd, htl⟩ := natReprAux_head (n+1) n (by omega)
      rw [htl] at hdata
      simp only [List.singleton_append] at hdata
      have hhead : digitChar d = '-' := ((List.cons.injEq _ _ _ _).mp hdata).1.symm
      have := digitChar_toNat d hd
      rw [hhead] at this
      have h2 : ('-').toNat = 45 := rfl
      omega
    | negSucc n =>
      simp only [intRepr, String.data_append, natRepr] at hdata
      simp only [List.singleton_append] at hdata
      have htail := ((List.cons.injEq _ _ _ _).mp hdata).2
      have hmn : (m + 1 : Nat) = n + 1 := natRepr_inj (strData_inj htail)
      have hm : m = n := by omega
      rw [hm]

theorem pyStrOptInt_no_pipe (q : Option Int) : '|' ∉ (pyStrOptInt q).data := by
  cases q with
  | none => decide
  | some n => exact intRepr_no_pipe n

/-- str() of an optional int column is injective ("None" starts with a
non-digit, non-minus character). -/
theorem pyStrOptInt_inj {a b : Option Int} (h : pyStrOptInt a = pyStrOptInt b) : a = b := by
  cases a with
  | none =>
    cases b with
    | none => rfl
    | some n =>
      exfalso
      have hdata := congrArg String.data h
      simp only [pyStrOptInt] at hdata
      cases n with
      | ofNat m =>
        simp only [intRepr, natRepr] at hdata
        obtain ⟨d, tl, hd, htl⟩ := natReprAux_head (m+1) m (by omega)
        rw [htl] at hdata
        have hhead : 'N' = digitChar d := ((List.cons.injEq _ _ _ _).mp hdata).1
        have := digitChar_toNat d hd
        rw [← hhead] at this
        have h2 : ('N').toNat = 78 := rfl
        omega
      | negSucc m =>
        simp only [intRepr, String.data_append] at hdata
        simp only [List.singleton_append] at hdata
        exact absurd ((List.cons.injEq _ _ _ _).mp hdata).1 (by decide)
  | some n =>
    cases b with
    | none =>
      exfalso
      have hdata := congrArg String.data h
      simp only [pyStrOptInt] at hdata
      cases n with
      | ofNat m =>
        simp only [intRepr, natRepr] at hdata
        obtain ⟨d, tl, hd, htl⟩ := natReprAux_head (m+1) m (by omega)
        rw [htl] at hdata
        have hhead : digitChar d = 'N' := ((List.cons.injEq _ _ _ _).mp hdata).1
        have := digitChar_toNat d hd
        rw [hhead] at this
        have h2 : ('N').toNat = 78 := rfl
        omega
      | negSucc m =>
        simp only [intRepr, String.data_append] at hdata
        simp only [List.singleton_append] at hdata
        exact absurd ((List.cons.injEq _ _ _ _).mp hdata).1 (by decide)
    | some m => exact congrArg some (intRepr_inj h)

theorem isoOpt_no_pipe (t : Option Nat) : '|' ∉ (isoOpt t).data := by
  cases t with
  | none => decide
  | some n => exact natRepr_no_pipe n

/-- The isoformat model is injective on nullable timestamps. -/
theorem isoOpt_inj {a b : Option Nat} (h : isoOpt a = isoOpt b) : a = b := by
  cases a with
  | none =>
    cases b with
    | none => rfl
    | some n => exact absurd h.symm (natRepr_ne_empty n)
  | some m =>
    cases b with
    | none => exact absurd h (natRepr_ne_empty m)
    | some n => exact congrArg some (natRepr_inj h)

/-- Splitting at the first separator: if neither prefix contains the
separator, equal joins have equal prefixes and equal tails. -/
theorem append_pipe_inj : ∀ (a b x y : List Char), '|' ∉ a → '|' ∉ b →
    a ++ '|' :: x = b ++ '|' :: y → a = b ∧ x = y := by
  intro a
  induction a with
  | nil =>
    intro b x y _ hb h
    cases b with
    | nil => simpa using h
    | cons c cs =>
      simp only [List.nil_append, List.cons_append, List.cons.injEq] at h
      exact absurd (h.1 ▸ List.mem_cons_self c cs) hb
  | cons c cs ih =>
    intro b x y ha hb h
    cases b with
    | nil =>
      simp only [List.nil_append, List.cons_append, List.cons.injEq] at h
      exact absurd (h.1 ▸ List.mem_cons_self c cs) (by simpa [h.1] using ha)
    | cons d ds =>
      simp only [List.cons_append, List.cons.injEq] at h
      obtain ⟨hcd, hrest⟩ := h
      obtain ⟨h1, h2⟩ := ih ds x y (fun hm => ha (List.mem_cons_of_mem c hm))
        (fun hm => hb (List.mem_cons_of_mem d hm)) hrest
      exact ⟨by rw [hcd, h1], h2⟩

/-- Splitting at the last separator: if neither tail contains the separator,
equal joins have equal prefixes and equal tails. -/
theorem pipe_split_right (a b x y : List Char) (hx : '|' ∉ x) (hy : '|' ∉ y)
    (h : a ++ '|' :: x = b ++ '|' :: y) : a = b ∧ x = y := by
  have hrev : x.reverse ++ '|' :: a.reverse = y.reverse ++ '|' :: b.reverse := by
    have h2 := congrArg List.reverse h
    simp only [List.reverse_append, List.reverse_cons, List.append_assoc,
      List.singleton_append] at h2
    exact h2
  obtain ⟨h1, h2⟩ := append_pipe_inj x.reverse y.reverse a.reverse b.reverse
    (by simpa using hx) (by simpa using hy) hrev
  constructor
  · have := congrArg List.reverse h2
    simpa using this
  · have := congrArg List.reverse h1
    simpa using this

/-- Regrouping the sweep key's blocks so the last separator is outermost. -/
theorem regroup_key (u sc tot iso : List Char) :
    u ++ '|' :: (sc ++ '|' :: (tot ++ '|' :: iso))
      = ((u ++ '|' :: sc) ++ '|' :: tot) ++ '|' :: iso := by
  simp [List.append_assoc]

/-- The sweep's joined key string determines, and is determined by, the tuple
(quiz_id, uname, score, total, created_at): the non-uname components render
without the separator, so the join is unambiguous. -/
theorem rowKey_inj (r s : ResultRow) (ur us : String) :
    rowKey r ur = rowKey s us ↔
      (r.quiz_id = s.quiz_id ∧ ur = us ∧ r.score = s.score ∧ r.total = s.total
       ∧ r.created_at = s.created_at) := by
  constructor
  · intro h
    have hdata : (pyStrOptInt r.quiz_id).data
          ++ '|' :: (ur.data ++ '|' :: ((intRepr r.score).data
          ++ '|' :: ((intRepr r.total).data ++ '|' :: (isoOpt r.created_at).data)))
        = (pyStrOptInt s.quiz_id).data
          ++ '|' :: (us.data ++ '|' :: ((intRepr s.score).data
          ++ '|' :: ((intRepr s.total).data ++ '|' :: (isoOpt s.created_at).data))) := by
      have h2 := congrArg String.data h
      simpa [rowKey] using h2
    obtain ⟨hqid, hrest⟩ := append_pipe_inj _ _ _ _
      (pyStrOptInt_no_pipe r.quiz_id) (pyStrOptInt_no_pipe s.quiz_id) hdata
    rw [regroup_key, regroup_key] at hrest
    obtain ⟨hrest2, hiso⟩ := pipe_split_right _ _ _ _
      (isoOpt_no_pipe r.created_at) (isoOpt_no_pipe s.created_at) hrest
    obtain ⟨hrest3, htot⟩ := pipe_split_right _ _ _ _
      (intRepr_no_pipe r.total) (intRepr_no_pipe s.total) hrest2
    obtain ⟨hu, hsc⟩ := pipe_split_right _ _ _ _
      (intRepr_no_pipe r.score) (intRepr_no_pipe s.score) hrest3
    exact ⟨pyStrOptInt_inj (strData_inj hqid), strData_inj hu,
      intRepr_inj (strData_inj hsc), intRepr_inj (strData_inj htot),
      isoOpt_inj (strData_inj hiso)⟩
  · rintro ⟨h1, h2, h3, h4, h5⟩
    simp only [rowKey, h1, h2, h3, h4, h5]

/-- Equal key strings mean equal key tuples, row by row. -/
theorem keyOf_eq_iff (r s : ResultRow) :
    keyOf r = keyOf s ↔ keyTupleOf r = keyTupleOf s := by
  simpa [keyOf, keyTupleOf, Prod.ext_iff] using rowKey_inj r s (unameOf r) (unameOf s)

theorem rowSortLe_total (a b : ResultRow) : rowSortLe a b = true ∨ rowSortLe b a = true := by
  unfold rowSortLe
  cases a.created_at <;> cases b.created_at <;> simp <;> omega

theorem rowSortLe_trans {a b c : ResultRow} (h1 : rowSortLe a b = true)
    (h2 : rowSortLe b c = true) : rowSortLe a c = true := by
  unfold rowSortLe at h1 h2 ⊢
  rcases ha : a.created_at with _ | x <;> rcases hb : b.created_at with _ | y <;>
    rcases hc : c.created_at with _ | z <;> simp_all <;> omega

theorem insertAsc_perm (r : ResultRow) (l : List ResultRow) :
    (insertAsc r l).Perm (r :: l) := by
  induction l with
  | nil => exact List.Perm.refl _
  | cons x xs ih =>
    simp only [insertAsc]
    by_cases h : rowSortLe r x = true
    · rw [if_pos h]
    · rw [if_neg h]
      exact (ih.cons x).trans (List.Perm.swap r x xs)

theorem sortRowsAsc_perm (l : List ResultRow) : (sortRowsAsc l).Perm l := by
  induction l with
  | nil => exact List.Perm.refl _
  | cons r rs ih => exact (insertAsc_perm r (sortRowsAsc rs)).trans (ih.cons r)

theorem mem_insertAsc {y r : ResultRow} {l : List ResultRow} :
    y ∈ insertAsc r l ↔ y = r ∨ y ∈ l := by
  rw [(insertAsc_perm r l).mem_iff]
  simp

theorem insertAsc_pairwise (r : ResultRow) (l : List ResultRow)
    (h : l.Pairwise (fun a b => rowSortLe a b = true)) :
    (insertAsc r l).Pairwise (fun a b => rowSortLe a b = true) := by
  induction l with
  | nil => simp [insertAsc]
  | cons x xs ih =>
    obtain ⟨hx, hxs⟩ := List.pairwise_cons.mp h
    simp only [insertAsc]
    by_cases hc : rowSortLe r x = true
    · rw [if_pos hc]
      refine List.pairwise_cons.mpr ⟨?_, h⟩
      intro y hy
      rcases List.mem_cons.mp hy with rfl | hy'
      · exact hc
      · exact rowSortLe_trans hc (hx y hy')
    · rw [if_neg hc]
      have hxr : rowSortLe x r = true := (rowSortLe_total r x).resolve_left hc
      refine List.pairwise_cons.mpr ⟨?_, ih hxs⟩
      intro y hy
      rcases mem_insertAsc.mp hy with rfl | hy'
      · exact hxr
      · exact hx y hy'

theorem sortRowsAsc_pairwise (l : List ResultRow) :
    (sortRowsAsc l).Pairwise (fun a b => rowSortLe a b = true) := by
  induction l with
  | nil => simp [sortRowsAsc]
  | cons r rs ih => exact insertAsc_pairwise r (sortRowsAsc rs) ih

/-- With unique primary keys, deleting the first() row matching an id deletes
every row with that id. -/
theorem deleteById_eq_filter (rows : List ResultRow) (rid : Nat)
    (h : (rows.map ResultRow.id).Nodup) :
    deleteById rows rid = rows.filter (fun r => decide (r.id ≠ rid)) := by
  induction rows with
  | nil => rfl
  | cons r t ih =>
    simp only [List.map_cons, List.nodup_cons] at h
    by_cases hr : r.id = rid
    · simp only [deleteById, hr, if_true, List.filter_cons]
      rw [if_neg (by simp [hr])]
      symm
      rw [List.filter_eq_self]
      intro x hx
      simp only [decide_eq_true_eq]
      intro hxx
      exact h.1 (List.mem_map.mpr ⟨x, hx, by rw [hxx, hr]⟩)
    · simp only [deleteById, hr, if_false, List.filter_cons]
      rw [if_pos (by simp [hr]), ih h.2]

theorem foldl_deleteById_eq_filter (ids : List Nat) : ∀ (rows : List ResultRow),
    (rows.map ResultRow.id).Nodup →
    ids.foldl deleteById rows = rows.filter (fun r => decide (r.id ∉ ids)) := by
  induction ids with
  | nil =>
    intro rows _
    simp
  | cons i is ih =>
    intro rows h
    simp only [List.foldl_cons]
    rw [deleteById_eq_filter rows i h]
    rw [ih _ (List.Nodup.sublist (List.Sublist.map ResultRow.id (List.filter_sublist rows)) h)]
    rw [List.filter_filter]
    congr 1
    funext r
    by_cases h1 : r.id = i <;> by_cases h2 : r.id ∈ is <;>
      simp [h1, h2, List.mem_cons]

/-- The duplicate-collection pass succeeds when every row's user resolves, and
collects exactly the ids of rows preceded (in scan order, or via the initial
seen set) by an equal key. -/
theorem sweepAux_spec : ∀ (l : List ResultRow) (seen : List String),
    (∀ r ∈ l, ∃ s, make_user_key r.user = .ok s) →
    ∃ out, sweepAux seen l = .ok out
      ∧ ∀ rid : Nat, rid ∈ out ↔
          ∃ j, ∃ hj : j < l.length, (l.get ⟨j, hj⟩).id = rid
            ∧ (keyOf (l.get ⟨j, hj⟩) ∈ seen
               ∨ ∃ i, ∃ hi : i < j, keyOf (l.get ⟨i, Nat.lt_trans hi hj⟩)
                   = keyOf (l.get ⟨j, hj⟩)) := by
  intro l
  induction l with
  | nil =>
    intro seen _
    refine ⟨[], rfl, ?_⟩
    intro rid
    simp
  | cons r t ih =>
    intro seen hus
    obtain ⟨u, hu⟩ := hus r (List.mem_cons_self r t)
    have hkey : rowKey r u = keyOf r := by simp [keyOf, unameOf, hu]
    by_cases hmem : keyOf r ∈ seen
    · obtain ⟨out', hout', hspec'⟩ := ih seen (fun x hx => hus x (List.mem_cons_of_mem r hx))
      refine ⟨r.id :: out', ?_, ?_⟩
      · simp only [sweepAux, hu, Except.bind, bind]
        rw [hkey, if_pos hmem, hout']
      · intro rid
        constructor
        · intro hrid
          rcases List.mem_cons.mp hrid with h0 | h1
          · exact ⟨0, by simp, by simpa using h0.symm, Or.inl (by simpa using hmem)⟩
          · obtain ⟨j, hj, hid, hcond⟩ := (hspec' rid).mp h1
            refine ⟨j+1, by simpa using hj, by simpa using hid, ?_⟩
            rcases hcond with hseen | ⟨i, hi, heq⟩
            · exact Or.inl (by simpa using hseen)
            · exact Or.inr ⟨i+1, by omega, by simpa using heq⟩
        · rintro ⟨j, hj, hid, hcond⟩
          cases j with
          | zero =>
            apply List.mem_cons.mpr
            exact Or.inl (by simpa using hid.symm)
          | succ j' =>
            apply List.mem_cons_of_mem
            apply (hspec' rid).mpr
            refine ⟨j', by simpa using hj, by simpa using hid, ?_⟩
            rcases hcond with hseen | ⟨i, hi, heq⟩
            · exact Or.inl (by simpa using hseen)
            · cases i with
              | zero =>
                refine Or.inl ?_
                have heq' : keyOf r = keyOf (t.get ⟨j', by simpa using hj⟩) := by
                  simpa using heq
                rw [← heq']
                simpa using hmem
              | succ i' =>
                exact Or.inr ⟨i', by omega, by simpa using heq⟩
    · obtain ⟨out, hout, hspec⟩ := ih (keyOf r :: seen)
        (fun x hx => hus x (List.mem_cons_of_mem r hx))
      refine ⟨out, ?_, ?_⟩
      · simp only [sweepAux, hu, Except.bind, bind]
        rw [hkey, if_neg hmem, hout]
      · intro rid
        constructor
        · intro hrid
          obtain ⟨j, hj, hid, hcond⟩ := (hspec rid).mp hrid
          refine ⟨j+1, by simpa using hj, by simpa using hid, ?_⟩
          rcases hcond with hseen | ⟨i, hi, heq⟩
          · rcases List.mem_cons.mp hseen with hk | hs
            · exact Or.inr ⟨0, by omega, by simpa using hk.symm⟩
            · exact Or.inl (by simpa using hs)
          · exact Or.inr ⟨i+1, by omega, by simpa using heq⟩
        · rintro ⟨j, hj, hid, hcond⟩
          cases j with
          | zero =>
            exfalso
            rcases hcond with hseen | ⟨i, hi, _⟩
            · exact hmem (by simpa using hseen)
            · omega
          | succ j' =>
            apply (hspec rid).mpr
            refine ⟨j', by simpa using hj, by simpa using hid, ?_⟩
            rcases hcond with hseen | ⟨i, hi, heq⟩
            · exact Or.inl (List.mem_cons_of_mem _ (by simpa using hseen))
            · cases i with
              | zero =>
                refine Or.inl (List.mem_cons.mpr (Or.inl ?_))
                have heq' : keyOf r = keyOf (t.get ⟨j', by simpa using hj⟩) := by
                  simpa using heq
                exact heq'.symm
              | succ i' =>
                exact Or.inr ⟨i', by omega, by simpa using heq⟩

/-- C7 (amended): the bulk sweep processes all stored rows oldest-first by
(created_at, id), keeps the first row of each key tuple (quiz_id, normalized
user identity, score, total, timestamp), deletes every later row sharing that
tuple, and never conflates rows whose stored timestamps differ; the removed
ids are collected (and printed), but the function's return value is None. -/
theorem cleanup_sweeps_duplicates (rows : List ResultRow)
    (husers : ∀ r ∈ rows, ∃ s, make_user_key r.user = .ok s)
    (hids : (rows.map ResultRow.id).Nodup) :
    ∃ removed : List Nat,
      sweepAux [] (sortRowsAsc rows) = .ok removed
      ∧ cleanup rows = .ok (rows.filter (fun r => decide (r.id ∉ removed)), none)
      ∧ (sortRowsAsc rows).Perm rows
      ∧ (sortRowsAsc rows).Pairwise (fun a b => rowSortLe a b = true)
      ∧ (∀ j (hj : j < (sortRowsAsc rows).length),
          ((sortRowsAsc rows).get ⟨j, hj⟩).id ∈ removed ↔
            ∃ i, ∃ hi : i < j,
              keyTupleOf ((sortRowsAsc rows).get ⟨i, Nat.lt_trans hi hj⟩)
                = keyTupleOf ((sortRowsAsc rows).get ⟨j, hj⟩))
      ∧ (∀ r s, r ∈ rows → s ∈ rows → r.created_at ≠ s.created_at → keyOf r ≠ keyOf s) := by
  have hus2 : ∀ r ∈ sortRowsAsc rows, ∃ s, make_user_key r.user = .ok s :=
    fun r hr => husers r ((sortRowsAsc_perm rows).mem_iff.mp hr)
  have hnodup2 : ((sortRowsAsc rows).map ResultRow.id).Nodup :=
    (((sortRowsAsc_perm rows).map ResultRow.id).nodup_iff).mpr hids
  obtain ⟨removed, hout, hspec⟩ := sweepAux_spec (sortRowsAsc rows) [] hus2
  refine ⟨removed, hout, ?_, sortRowsAsc_perm rows, sortRowsAsc_pairwise rows, ?_, ?_⟩
  · simp only [cleanup, hout, Except.bind, bind]
    by_cases hrem : removed = []
    · subst hrem
      simp
    · rw [if_neg hrem, foldl_deleteById_eq_filter removed rows hids]
  · intro j hj
    constructor
    · intro hmem
      obtain ⟨j2, hj2, hid, hcond⟩ := (hspec _).mp hmem
      rcases hcond with hseen | ⟨i, hi, heq⟩
      · exact absurd hseen (List.not_mem_nil _)
      · have hjj : j2 = j := by
          have hmap2 : ((sortRowsAsc rows).map ResultRow.id).get
              ⟨j2, by simpa using hj2⟩
              = ((sortRowsAsc rows).map ResultRow.id).get ⟨j, by simpa using hj⟩ := by
            simp only [List.get_map]
            exact hid
          have := (List.Nodup.get_inj_iff hnodup2).mp hmap2
          simpa using this
        subst hjj
        exact ⟨i, hi, (keyOf_eq_iff _ _).mp heq⟩
    · rintro ⟨i, hi, htuple⟩
      exact (hspec _).mpr ⟨j, hj, rfl, Or.inr ⟨i, hi, (keyOf_eq_iff _ _).mpr htuple⟩⟩
  · intro r s _ _ hne hkeys
    exact hne (congrArg (fun t => t.2.2.2.2) ((keyOf_eq_iff r s).mp hkeys))

/-- Witness for C7's amended theorem: two double-click duplicates plus one
later attempt with a different timestamp. -/
theorem cleanup_sweeps_duplicates_witness :
    ((∀ r ∈ [dupRow 1, dupRow 2], ∃ s, make_user_key r.user = .ok s)
     ∧ (([dupRow 1, dupRow 2] : List ResultRow).map ResultRow.id).Nodup)
    ∧ (∃ removed : List Nat,
        sweepAux [] (sortRowsAsc [dupRow 1, dupRow 2]) = .ok removed
        ∧ cleanup [dupRow 1, dupRow 2]
            = .ok (([dupRow 1, dupRow 2] : List ResultRow).filter
                (fun r => decide (r.id ∉ removed)), none)
        ∧ (sortRowsAsc [dupRow 1, dupRow 2]).Perm [dupRow 1, dupRow 2]
        ∧ (sortRowsAsc [dupRow 1, dupRow 2]).Pairwise (fun a b => rowSortLe a b = true)
        ∧ (∀ j (hj : j < (sortRowsAsc [dupRow 1, dupRow 2]).length),
            ((sortRowsAsc [dupRow 1, dupRow 2]).get ⟨j, hj⟩).id ∈ removed ↔
              ∃ i, ∃ hi : i < j,
                keyTupleOf ((sortRowsAsc [dupRow 1, dupRow 2]).get ⟨i, Nat.lt_trans hi hj⟩)
                  = keyTupleOf ((sortRowsAsc [dupRow 1, dupRow 2]).get ⟨j, hj⟩))
        ∧ (∀ r s, r ∈ [dupRow 1, dupRow 2] → s ∈ [dupRow 1, dupRow 2] →
            r.created_at ≠ s.created_at → keyOf r ≠ keyOf s)) := by
  have h1 : ∀ r ∈ [dupRow 1, dupRow 2], ∃ s, make_user_key r.user = .ok s := by
    intro r hr
    refine ⟨"a@x.com", ?_⟩
    rcases List.mem_cons.mp hr with rfl | hr2
    · decide
    · rcases List.mem_cons.mp hr2 with rfl | hr3
      · decide
      · exact absurd hr3 (List.not_mem_nil r)
  have h2 : (([dupRow 1, dupRow 2] : List ResultRow).map ResultRow.id).Nodup := by decide
  exact ⟨⟨h1, h2⟩, cleanup_sweeps_duplicates [dupRow 1, dupRow 2] h1 h2⟩

/-- C7 counterexample: on three rows sharing one exact key the sweep collects
ids 2 and 3 and deletes those rows, but cleanup's return value is None -- the
code prints the removed ids instead of returning them, so "sweep() -> list of
removed ids" fails as stated. -/
theorem cleanup_returns_none_not_removed_ids :
    sweepAux [] (sortRowsAsc [dupRow 1, dupRow 2, dupRow 3]) = .ok [2, 3]
    ∧ cleanup [dupRow 1, dupRow 2, dupRow 3] = .ok ([dupRow 1], none) := by decide

theorem charsLe_total : ∀ (a b : List Char), charsLe a b = true ∨ charsLe b a = true := by
  intro a
  induction a with
  | nil => intro b; left; cases b <;> rfl
  | cons x xs ih =>
    intro b
    cases b with
    | nil => right; rfl
    | cons y ys =>
      simp only [charsLe]
      by_cases h1 : x.toNat < y.toNat
      · left; rw [if_pos h1]
      · by_cases h2 : y.toNat < x.toNat
        · right; rw [if_pos h2]
        · have hxy : ¬x.toNat < y.toNat := h1
          rw [if_neg h1, if_neg h2, if_neg h2, if_neg h1]
          exact ih ys

theorem charsLe_antisymm : ∀ (a b : List Char),
    charsLe a b = true → charsLe b a = true → a = b := by
  intro a
  induction a with
  | nil =>
    intro b _ hba
    cases b with
    | nil => rfl
    | cons y ys => exact absurd hba (by simp [charsLe])
  | cons x xs ih =>
    intro b hab hba
    cases b with
    | nil => exact absurd hab (by simp [charsLe])
    | cons y ys =>
      simp only [charsLe] at hab hba
      by_cases h1 : x.toNat < y.toNat
      · rw [if_neg (by omega), if_pos h1] at hba
        exact absurd hba (by simp)
      · by_cases h2 : y.toNat < x.toNat
        · rw [if_neg h1, if_pos h2] at hab
          exact absurd hab (by simp)
        · rw [if_neg h1, if_neg h2] at hab
          rw [if_neg h2, if_neg h1] at hba
          have hx : x = y := by
            have : x.toNat = y.toNat := by omega
            have := congrArg Char.ofNat this
            simpa [Char.ofNat_toNat] using this
          rw [hx, ih ys hab hba]

theorem charsLe_trans : ∀ (a b c : List Char),
    charsLe a b = true → charsLe b c = true → charsLe a c = true := by
  intro a
  induction a with
  | nil => intro b c _ _; cases c <;> rfl
  | cons x xs ih =>
    intro b c hab hbc
    cases b with
    | nil => exact absurd hab (by simp [charsLe])
    | cons y ys =>
      cases c with
      | nil => exact absurd hbc (by simp [charsLe])
      | cons z zs =>
        simp only [charsLe] at hab hbc ⊢
        by_cases h1 : x.toNat < y.toNat <;> by_cases h2 : y.toNat < z.toNat
        · rw [if_pos (by omega)]
        · rw [if_neg h2] at hbc
          by_cases h3 : z.toNat < y.toNat
          · rw [if_pos h3] at hbc
            exact absurd hbc (by simp)
          · rw [if_pos (by omega)]
        · rw [if_neg h1] at hab
          by_cases h3 : y.toNat < x.toNat
          · rw [if_pos h3] at hab
            exact absurd hab (by simp)
          · rw [if_pos (by omega)]
        · rw [if_neg h1] at hab
          rw [if_neg h2] at hbc
          by_cases h3 : y.toNat < x.toNat
          · rw [if_pos h3] at hab
            exact absurd hab (by simp)
          · by_cases h4 : z.toNat < y.toNat
            · rw [if_pos h4] at hbc
              exact absurd hbc (by simp)
            · rw [if_neg h3] at hab
              rw [if_neg h4] at hbc
              rw [if_neg (by omega), if_neg (by omega)]
              exact ih ys zs hab hbc

theorem strLe_total (a b : String) : strLe a b = true ∨ strLe b a = true :=
  charsLe_total a.data b.data

theorem strLe_antisymm {a b : String} (h1 : strLe a b = true) (h2 : strLe b a = true) :
    a = b :=
  strData_inj (charsLe_antisymm a.data b.data h1 h2)

theorem strLe_trans {a b c : String} (h1 : strLe a b = true) (h2 : strLe b c = true) :
    strLe a c = true :=
  charsLe_trans a.data b.data c.data h1 h2

/-- Inserting two bindings with distinct keys commutes. -/
theorem pairInsert_comm (p q : String × JVal) (hne : p.1 ≠ q.1) :
    ∀ l, pairInsert p (pairInsert q l) = pairInsert q (pairInsert p l) := by
  have hone : ∀ (a b : String × JVal), a.1 ≠ b.1 → strLe a.1 b.1 = true →
      strLe b.1 a.1 = false := by
    intro a b hab h1
    by_contra h2
    exact hab (strLe_antisymm h1 (by revert h2; cases strLe b.1 a.1 <;> simp))
  intro l
  induction l with
  | nil =>
    by_cases h1 : strLe p.1 q.1 = true
    · have h2 := hone p q hne h1
      simp [pairInsert, h1, h2]
    · have h1f : strLe p.1 q.1 = false := by revert h1; cases strLe p.1 q.1 <;> simp
      have h2 : strLe q.1 p.1 = true := (strLe_total p.1 q.1).resolve_left h1
      simp [pairInsert, h1f, h2]
  | cons x xs ih =>
    by_cases hq : strLe q.1 x.1 = true <;> by_cases hp : strLe p.1 x.1 = true
    · by_cases h1 : strLe p.1 q.1 = true
      · have h2 := hone p q hne h1
        simp [pairInsert, hq, hp, h1, h2]
      · have h1f : strLe p.1 q.1 = false := by revert h1; cases strLe p.1 q.1 <;> simp
        have h2 : strLe q.1 p.1 = true := (strLe_total p.1 q.1).resolve_left h1
        simp [pairInsert, hq, hp, h1f, h2]
    · have hpf : strLe p.1 x.1 = false := by revert hp; cases strLe p.1 x.1 <;> simp
      have h1f : strLe p.1 q.1 = false := by
        by_contra hc
        have hc2 : strLe p.1 q.1 = true := by revert hc; cases strLe p.1 q.1 <;> simp
        exact absurd (strLe_trans hc2 hq) (by simp [hpf])
      simp [pairInsert, hq, hpf, h1f]
    · have hqf : strLe q.1 x.1 = false := by revert hq; cases strLe q.1 x.1 <;> simp
      have h1f : strLe q.1 p.1 = false := by
        by_contra hc
        have hc2 : strLe q.1 p.1 = true := by revert hc; cases strLe q.1 p.1 <;> simp
        exact absurd (strLe_trans hc2 hp) (by simp [hqf])
      simp [pairInsert, hqf, hp, h1f]
    · have hqf : strLe q.1 x.1 = false := by revert hq; cases strLe q.1 x.1 <;> simp
      have hpf : strLe p.1 x.1 = false := by revert hp; cases strLe p.1 x.1 <;> simp
      simp [pairInsert, hqf, hpf, ih]

/-- Sorting is invariant under permutation when the keys are distinct. -/
theorem pairSort_congr : ∀ {l₁ l₂ : List (String × JVal)}, l₁.Perm l₂ →
    (l₁.map Prod.fst).Nodup → pairSort l₁ = pairSort l₂ := by
  intro l₁ l₂ h
  induction h with
  | nil => intro _; rfl
  | cons x h ih =>
    intro hn
    simp only [List.map_cons, List.nodup_cons] at hn
    simp only [pairSort]
    rw [ih hn.2]
  | swap x y l =>
    intro hn
    simp only [List.map_cons, List.nodup_cons, List.mem_cons] at hn
    have hxy : y.1 ≠ x.1 := fun hh => hn.1 (Or.inl hh)
    simp only [pairSort]
    exact pairInsert_comm y x hxy (pairSort l)
  | trans h1 h2 ih1 ih2 =>
    intro hn
    rename_i la lb lc
    have hnb : (lb.map Prod.fst).Nodup := ((h1.map Prod.fst).nodup_iff).mp hn
    exact (ih1 hn).trans (ih2 hnb)

theorem toList_ofList_jobj : ∀ l : List (String × JVal), (JObj.ofList l).toList = l := by
  intro l
  induction l with
  | nil => rfl
  | cons p ps ih =>
    cases p
    simp [JObj.ofList, JObj.toList, ih]

theorem jobjInsert_ofList (k : String) (v : JVal) :
    ∀ l : List (String × JVal),
      jobjInsert k v (JObj.ofList l) = JObj.ofList (pairInsert (k, v) l) := by
  intro l
  induction l with
  | nil => rfl
  | cons p ps ih =>
    cases p with
    | mk k2 v2 =>
      simp only [JObj.ofList, jobjInsert, pairInsert]
      by_cases h : strLe k k2 = true
      · rw [if_pos h, if_pos h]
        rfl
      · rw [if_neg h, if_neg h]
        simp [JObj.ofList, ih]

theorem jobjSort_ofList : ∀ l : List (String × JVal),
    jobjSort (JObj.ofList l) = JObj.ofList (pairSort l) := by
  intro l
  induction l with
  | nil => rfl
  | cons p ps ih =>
    cases p
    simp only [JObj.ofList, jobjSort, pairSort, ih, jobjInsert_ofList]

theorem sortDeepObj_ofList : ∀ l : List (String × JVal),
    sortDeepObj (JObj.ofList l) = JObj.ofList (l.map (fun p => (p.1, sortDeep p.2))) := by
  intro l
  induction l with
  | nil => rfl
  | cons p ps ih =>
    cases p
    simp [JObj.ofList, sortDeepObj, ih]

/-- Canonical encoding of an object is invariant under permuting its bindings
(distinct keys). -/
theorem dumps_obj_perm {l₁ l₂ : List (String × JVal)} (hperm : l₁.Perm l₂)
    (hnodup : (l₁.map Prod.fst).Nodup) :
    dumps (.obj (JObj.ofList l₁)) = dumps (.obj (JObj.ofList l₂)) := by
  have hmapperm : (l₁.map (fun p => (p.1, sortDeep p.2))).Perm
      (l₂.map (fun p => (p.1, sortDeep p.2))) := hperm.map _
  have hmapnodup : ((l₁.map (fun p => (p.1, sortDeep p.2))).map Prod.fst).Nodup := by
    have : (l₁.map (fun p => (p.1, sortDeep p.2))).map Prod.fst = l₁.map Prod.fst := by
      simp
    rw [this]
    exact hnodup
  have hsorted : jobjSort (sortDeepObj (JObj.ofList l₁))
      = jobjSort (sortDeepObj (JObj.ofList l₂)) := by
    rw [sortDeepObj_ofList, sortDeepObj_ofList, jobjSort_ofList, jobjSort_ofList]
    rw [pairSort_congr hmapperm hmapnodup]
  show dumpsRaw (sortDeep (.obj (JObj.ofList l₁))) = dumpsRaw (sortDeep (.obj (JObj.ofList l₂)))
  simp only [sortDeep]
  rw [hsorted]

/-- The canonical encoding of a question list is the bracketed comma-join of
the members' encodings. -/
theorem dumps_arr_ofList : ∀ es : List JVal,
    dumps (.arr (JList.ofList es)) = "[" ++ joinComma (es.map dumps) ++ "]" := by
  have haux : ∀ es : List JVal,
      dumpsRawList (sortDeepList (JList.ofList es)) = joinComma (es.map dumps) := by
    intro es
    induction es with
    | nil => rfl
    | cons e rest ih =>
      cases rest with
      | nil => rfl
      | cons e2 rest2 =>
        simp only [JList.ofList, sortDeepList, dumpsRawList, List.map_cons, joinComma]
        simp only [JList.ofList, sortDeepList, List.map_cons] at ih
        rw [ih]
        rfl
  intro es
  show dumpsRaw (sortDeep (.arr (JList.ofList es))) = _
  simp only [sortDeep, dumpsRaw]
  rw [haux es]

theorem combineWords_inj : ∀ (ws vs : List Nat), ws.length = vs.length →
    (∀ w ∈ ws, w < 4294967296) → (∀ v ∈ vs, v < 4294967296) →
    combineWords ws = combineWords vs → ws = vs := by
  intro ws
  induction ws with
  | nil =>
    intro vs hlen _ _ _
    cases vs with
    | nil => rfl
    | cons v vs => simp at hlen
  | cons w ws ih =>
    intro vs hlen hbw hbv heq
    cases vs with
    | nil => simp at hlen
    | cons v vs =>
      simp only [combineWords] at heq
      have hw := hbw w (List.mem_cons_self _ _)
      have hv := hbv v (List.mem_cons_self _ _)
      have hwv : w = v ∧ combineWords ws = combineWords vs := by omega
      rw [hwv.1, ih vs (by simpa using hlen)
        (fun x hx => hbw x (List.mem_cons_of_mem _ hx))
        (fun x hx => hbv x (List.mem_cons_of_mem _ hx)) hwv.2]

theorem combineWords_lt : ∀ ws : List Nat, (∀ w ∈ ws, w < 4294967296) →
    combineWords ws < 4294967296 ^ ws.length := by
  intro ws
  induction ws with
  | nil => intro _; simp [combineWords]
  | cons w ws ih =>
    intro hb
    have h1 := hb w (List.mem_cons_self _ _)
    have h2 := ih (fun x hx => hb x (List.mem_cons_of_mem _ hx))
    simp only [combineWords, List.length_cons, pow_succ]
    calc w + 4294967296 * combineWords ws
        < 4294967296 + 4294967296 * combineWords ws := by omega
      _ = 4294967296 * (combineWords ws + 1) := by ring
      _ ≤ 4294967296 * 4294967296 ^ ws.length := Nat.mul_le_mul_left _ (by omega)
      _ = 4294967296 ^ ws.length * 4294967296 := by ring

theorem w32_lt (x : Nat) : w32 x < 4294967296 := Nat.mod_lt _ (by omega)

theorem compressBlock_bounded (hs block : List Nat) :
    (compressBlock hs block).length = 8 ∧ ∀ w ∈ compressBlock hs block, w < 4294967296 := by
  constructor
  · rfl
  · intro w hw
    simp only [compressBlock, List.mem_map] at hw
    obtain ⟨x, _, rfl⟩ := hw
    exact w32_lt x

/-- The digest is always eight words below 2^32. -/
theorem sha256Words_bounded (msg : List Nat) :
    (sha256Words msg).length = 8 ∧ ∀ w ∈ sha256Words msg, w < 4294967296 := by
  have hfold : ∀ (blocks : List (List Nat)) (hs : List Nat),
      hs.length = 8 → (∀ w ∈ hs, w < 4294967296) →
      (blocks.foldl compressBlock hs).length = 8
        ∧ ∀ w ∈ blocks.foldl compressBlock hs, w < 4294967296 := by
    intro blocks
    induction blocks with
    | nil => intro hs h1 h2; exact ⟨h1, h2⟩
    | cons b bs ih =>
      intro hs _ _
      simp only [List.foldl_cons]
      exact ih _ (compressBlock_bounded hs b).1 (compressBlock_bounded hs b).2
  simp only [sha256Words]
  exact hfold _ shaH0 (by decide) (by decide)

theorem joinComma_replicate_length (s : String) : ∀ n : Nat,
    (joinComma (List.replicate (n+1) s)).length = (n+1) * s.length + n := by
  intro n
  induction n with
  | zero => simp [joinComma]
  | succ n ih =>
    rw [List.replicate_succ]
    rw [List.replicate_succ]
    show (s ++ "," ++ joinComma (s :: List.replicate n s)).length = _
    rw [← List.replicate_succ]
    have hc : ("," : String).length = 1 := rfl
    simp only [String.length_append, ih, hc]
    ring

/-- Length of the canonical encoding of n+1 copies of qEx. -/
theorem encode_replicate_length (n : Nat) :
    (encodeQuestions (List.replicate (n+1) qEx)).length
      = (n+1) * (dumps qEx).length + n + 2 := by
  show (dumps (.arr (JList.ofList (List.replicate (n+1) qEx)))).length = _
  rw [dumps_arr_ofList, List.map_replicate]
  have h1 : ("[" : String).length = 1 := rfl
  have h2 : ("]" : String).length = 1 := rfl
  simp only [String.length_append, h1, h2, joinComma_replicate_length]
  ring

set_option maxHeartbeats 2000000 in
/-- C4 counterexample: the claimed equivalence "fingerprints equal iff
canonical encodings equal" is false for a 256-bit digest: among 2^256+1
question lists with pairwise distinct encodings two must share a digest. -/
theorem fingerprint_not_content_iff :
    ¬ (∀ Q R : List JVal, _questions_fingerprint Q = _questions_fingerprint R ↔
        encodeQuestions Q = encodeQuestions R) := by
  intro H
  have hbound : ∀ n : Nat,
      combineWords (sha256Words (strUtf8 (encodeQuestions (List.replicate (n+1) qEx))))
        < 2 ^ 256 := by
    intro n
    have h1 := combineWords_lt _ (sha256Words_bounded
      (strUtf8 (encodeQuestions (List.replicate (n+1) qEx)))).2
    rw [(sha256Words_bounded _).1] at h1
    have hp : (4294967296 : Nat) ^ 8 = 2 ^ 256 := by norm_num
    rw [hp] at h1
    exact h1
  obtain ⟨a, b, hab, hfeq⟩ := Fintype.exists_ne_map_eq_of_card_lt
    (fun n : Fin (2 ^ 256 + 1) =>
      (⟨combineWords (sha256Words (strUtf8 (encodeQuestions (List.replicate (n.1+1) qEx)))),
        hbound n.1⟩ : Fin (2 ^ 256)))
    (by simp only [Fintype.card_fin]; exact Nat.lt_succ_self _)
  have hcomb : combineWords (sha256Words (strUtf8 (encodeQuestions
        (List.replicate (a.1+1) qEx))))
      = combineWords (sha256Words (strUtf8 (encodeQuestions
        (List.replicate (b.1+1) qEx)))) := congrArg Fin.val hfeq
  have hwords := combineWords_inj _ _
    (by rw [(sha256Words_bounded _).1, (sha256Words_bounded _).1])
    (sha256Words_bounded _).2 (sha256Words_bounded _).2 hcomb
  have hfp : _questions_fingerprint (List.replicate (a.1+1) qEx)
      = _questions_fingerprint (List.replicate (b.1+1) qEx) := by
    unfold _questions_fingerprint sha256hex
    rw [hwords]
  have henc := (H _ _).mp hfp
  have hlen := congrArg String.length henc
  rw [encode_replicate_length, encode_replicate_length] at hlen
  have h4 : (a.1+1) * (dumps qEx).length + a.1 = (b.1+1) * (dumps qEx).length + b.1 :=
    Nat.add_right_cancel hlen
  have h5 : (a.1+1) * ((dumps qEx).length + 1) = (b.1+1) * ((dumps qEx).length + 1) := by
    calc (a.1+1) * ((dumps qEx).length + 1)
        = ((a.1+1) * (dumps qEx).length + a.1) + 1 := by ring
      _ = ((b.1+1) * (dumps qEx).length + b.1) + 1 := by rw [h4]
      _ = (b.1+1) * ((dumps qEx).length + 1) := by ring
  have h6 : a.1 + 1 = b.1 + 1 :=
    Nat.eq_of_mul_eq_mul_right (by omega) h5
  exact hab (Fin.ext (by omega))

set_option maxRecDepth 40000 in
/-- C4 (amended): the fingerprint is a function of the canonical encoding
(equal encodings give equal fingerprints; the full converse fails only at
SHA-256 collisions, which exist by counting); permuting object keys inside
any question leaves the encoding and the fingerprint unchanged; and changing
an option string, changing the correct answer, or adding a question changes
the fingerprint on the concrete examples. -/
theorem fingerprint_of_canonical_content :
    (∀ Q R : List JVal, encodeQuestions Q = encodeQuestions R →
      _questions_fingerprint Q = _questions_fingerprint R)
    ∧ (∀ (pre post : List JVal) (l₁ l₂ : List (String × JVal)),
        l₁.Perm l₂ → (l₁.map Prod.fst).Nodup →
        encodeQuestions (pre ++ .obj (JObj.ofList l₁) :: post)
            = encodeQuestions (pre ++ .obj (JObj.ofList l₂) :: post)
          ∧ _questions_fingerprint (pre ++ .obj (JObj.ofList l₁) :: post)
            = _questions_fingerprint (pre ++ .obj (JObj.ofList l₂) :: post))
    ∧ _questions_fingerprint [qEx] ≠ _questions_fingerprint [qExOptChanged]
    ∧ _questions_fingerprint [qEx] ≠ _questions_fingerprint [qExAnswerChanged]
    ∧ _questions_fingerprint [qEx] ≠ _questions_fingerprint [qEx, qEx] := by
  have henc : ∀ (pre post : List JVal) (l₁ l₂ : List (String × JVal)),
      l₁.Perm l₂ → (l₁.map Prod.fst).Nodup →
      encodeQuestions (pre ++ .obj (JObj.ofList l₁) :: post)
        = encodeQuestions (pre ++ .obj (JObj.ofList l₂) :: post) := by
    intro pre post l₁ l₂ hperm hnodup
    unfold encodeQuestions
    rw [dumps_arr_ofList, dumps_arr_ofList, List.map_append, List.map_cons,
      List.map_append, List.map_cons, dumps_obj_perm hperm hnodup]
  refine ⟨?_, ?_, ?_, ?_, ?_⟩
  · intro Q R h
    unfold _questions_fingerprint
    rw [h]
  · intro pre post l₁ l₂ hperm hnodup
    have he := henc pre post l₁ l₂ hperm hnodup
    refine ⟨he, ?_⟩
    unfold _questions_fingerprint
    rw [he]
  · decide
  · decide
  · decide

set_option maxRecDepth 40000 in
/-- Witness for C4's amended theorem: a two-key question object with its keys
swapped, and two concretely equal encodings. -/
theorem fingerprint_of_canonical_content_witness :
    (([("b", JVal.int 1), ("a", JVal.null)] : List (String × JVal)).Perm
        [("a", JVal.null), ("b", JVal.int 1)]
     ∧ (([("b", JVal.int 1), ("a", JVal.null)] : List (String × JVal)).map Prod.fst).Nodup
     ∧ encodeQuestions [qEx] = encodeQuestions [qEx])
    ∧ (encodeQuestions [.obj (JObj.ofList [("b", JVal.int 1), ("a", JVal.null)])]
         = encodeQuestions [.obj (JObj.ofList [("a", JVal.null), ("b", JVal.int 1)])]
       ∧ _questions_fingerprint [.obj (JObj.ofList [("b", JVal.int 1), ("a", JVal.null)])]
         = _questions_fingerprint [.obj (JObj.ofList [("a", JVal.null), ("b", JVal.int 1)])])
    ∧ _questions_fingerprint [qEx] = _questions_fingerprint [qEx] :=
  ⟨⟨List.Perm.swap ("a", JVal.null) ("b", JVal.int 1) [], by decide, rfl⟩,
   fingerprint_of_canonical_content.2.1 [] []
     [("b", JVal.int 1), ("a", JVal.null)] [("a", JVal.null), ("b", JVal.int 1)]
     (List.Perm.swap ("a", JVal.null) ("b", JVal.int 1) []) (by decide),
   fingerprint_of_canonical_content.1 [qEx] [qEx] rfl⟩

/-- Witness for C9 at a concrete graded submission. -/
theorem submit_grading_invariants_witness :
    (([qEx] : List JVal) ≠ []
     ∧ gradeLoop (.arr (JList.ofList [.str ("4")])) 0 [qEx] = .ok (1, [entryEx]))
    ∧ (0 < ([qEx] : List JVal).length ∧ [entryEx].length = ([qEx] : List JVal).length
       ∧ 1 ≤ ([qEx] : List JVal).length
       ∧ 1 = [entryEx].countP (fun x => x.isCorrect)) :=
  ⟨⟨by decide, by decide⟩,
   submit_grading_invariants [qEx] (.arr (JList.ofList [.str ("4")])) 1 [entryEx]
     (by decide) (by decide)⟩

end WebQuiz
